import Mathlib

/-!
Verification development for the AutoDeploy repository-synchronization engine
and its environment-driven artifact templating.

The definitions below are a shallow embedding of the TypeScript source:

* `AnalysisView` (templating half): `STANDARD_LLM_VARS`, `cleanDockerfile`,
  the mandatory-variable merge `useEffect` (`mergeStandardVars`, the sort
  comparator `envCompare`), and the memoised `dockerComposeContent`.
* `githubService`: `createRepository` (its request payload) and
  `pushFilesToRepo`, modelled as a pure function of an oracle `GitHubEnv`
  that supplies the outcome of every remote call; the progress callback
  becomes an explicit event trace.

Strings are Lean `String`s; JavaScript string operations used by the source
(`split('\n')`, `trim`, `startsWith`, `includes`, `findIndex`,
`localeCompare`) are embedded as executable functions over `List Char` /
`String`.  `localeCompare` is modelled as code-point comparison (the source
only compares uppercase `[A-Z0-9_]` keys, where locale collation and
code-point order agree up to punctuation weight, which the specification
does not constrain).  Optional string fields (`value?`, `defaultValue?`)
are collapsed to `String` with `""` for `undefined`; every use site in the
source (`v.value || ''`, truthiness tests) is invariant under this
collapse.
-/

/-- Embedding of the `EnvVarSuggestion` interface from `types.ts`.
`value` and `defaultValue` are optional strings in the source; `""` stands
for `undefined` (observationally equivalent at every use site). -/
structure EnvVarSuggestion where
  key : String
  description : String
  defaultValue : String
  value : String
deriving DecidableEq, Repr

/-- The fixed list `STANDARD_LLM_VARS` from `AnalysisView`, in source order.
Object literal order in the source is `{ key, value, description }`. -/
def STANDARD_LLM_VARS : List EnvVarSuggestion :=
  [ ⟨"LLM_PROVIDER", "Set to \x27openrouter\x27 or \x27gemini\x27", "", "openrouter"⟩
  , ⟨"OPENROUTER_API_KEY", "Required if LLM_PROVIDER is openrouter", "", ""⟩
  , ⟨"GOOGLE_API_KEY", "Required if LLM_PROVIDER is gemini", "", ""⟩
  , ⟨"BASE_URL", "API Endpoint (for OpenRouter)", "", "https://openrouter.ai/api/v1"⟩
  , ⟨"MODEL_NAME", "Model ID (for OpenRouter)", "", "meta-llama/llama-3.1-8b-instruct"⟩
  , ⟨"HOST", "Required for Docker networking (Auto-handled)", "", "0.0.0.0"⟩ ]

/-- JavaScript `String.prototype.split('\n')`: cut at every newline,
keeping empty pieces.  Accumulator holds the current piece reversed. -/
def splitNlAux : List Char → List Char → List (List Char)
  | [], acc => [acc.reverse]
  | c :: cs, acc =>
    if c = '\n' then acc.reverse :: splitNlAux cs []
    else splitNlAux cs (c :: acc)

/-- `s.split('\n')` on the character list of a string. -/
def splitNl (s : List Char) : List (List Char) :=
  splitNlAux s []

/-- `Array.prototype.join('\n')`. -/
def joinNl : List (List Char) → List Char
  | [] => []
  | [l] => l
  | l :: ls => l ++ '\n' :: joinNl ls

/-- JavaScript `String.prototype.trim()` (whitespace at both ends). -/
def trimChars (l : List Char) : List Char :=
  ((l.dropWhile Char.isWhitespace).reverse.dropWhile Char.isWhitespace).reverse

/-- The filter predicate `l.trim().startsWith('ENV ')` from `cleanDockerfile`. -/
def isEnvLine (l : List Char) : Bool :=
  "ENV ".toList.isPrefixOf (trimChars l)

/-- Substring test on character lists: does `needle` occur contiguously? -/
def infixOfL (needle : List Char) : List Char → Bool
  | [] => needle.isEmpty
  | c :: cs => needle.isPrefixOf (c :: cs) || infixOfL needle cs

/-- JavaScript `String.prototype.includes(sub)`. -/
def jsIncludes (l : List Char) (sub : String) : Bool :=
  infixOfL sub.toList l

/-- JavaScript `Array.prototype.findIndex`: index of first match or `-1`. -/
def jsFindIndex (p : List Char → Bool) (ls : List (List Char)) : Int :=
  match ls.findIdx? p with
  | some i => (i : Int)
  | none => -1

/-- The anchor computation of `cleanDockerfile`:
`findIndex(includes WORKDIR)`, falling back to `findIndex(includes FROM)`. -/
def anchorIdx (lines : List (List Char)) : Int :=
  let i := jsFindIndex (fun l => jsIncludes l "WORKDIR") lines
  if i = -1 then jsFindIndex (fun l => jsIncludes l "FROM") lines else i

/-- One emitted declaration line: `ENV ${v.key}="${v.value || ''}"`. -/
def emitEnvLine (v : EnvVarSuggestion) : List Char :=
  "ENV ".toList ++ v.key.toList ++ "=\"".toList ++ v.value.toList ++ "\"".toList

/-- `cleanDockerfile` from `AnalysisView`: drop every line whose trimmed
form starts with `ENV `, then splice one fresh `ENV` line per variable
right after the `WORKDIR` line (else the `FROM` line, else at the top). -/
def cleanDockerfile (dockerfile : String) (vars : List EnvVarSuggestion) : String :=
  let lines := splitNl dockerfile.toList
  let lines := lines.filter (fun l => !(isEnvLine l))
  let insertIdx := anchorIdx lines
  let envLines := vars.map emitEnvLine
  let n := (insertIdx + 1).toNat
  String.mk (joinNl (lines.take n ++ envLines ++ lines.drop n))

/-- The line-level core of `cleanDockerfile`: filter out declaration
lines, then splice the fresh ones after the anchor. -/
def cleanLines (lines0 : List (List Char)) (vars : List EnvVarSuggestion) :
    List (List Char) :=
  let lines := lines0.filter (fun l => !(isEnvLine l))
  let n := (anchorIdx lines + 1).toNat
  lines.take n ++ vars.map emitEnvLine ++ lines.drop n

/-- The backfill arm of the merge `useEffect`: `findIndex` of the first
entry with the standard key, then
`if (idx !== -1 && !newVars[idx].value && stdVar.value) newVars[idx].value = stdVar.value`.
Embedded as a first-occurrence update. -/
def backfillFirst (stdVar : EnvVarSuggestion) : List EnvVarSuggestion → List EnvVarSuggestion
  | [] => []
  | v :: vs =>
    if v.key == stdVar.key then
      (if v.value = "" ∧ stdVar.value ≠ "" then
        ⟨v.key, v.description, v.defaultValue, stdVar.value⟩ :: vs
      else v :: vs)
    else v :: backfillFirst stdVar vs

/-- One iteration of the `STANDARD_LLM_VARS.forEach` loop.  The membership
test uses `currentKeys`, computed once from the pre-merge list. -/
def mergeStd (prevKeys : List String) (newVars : List EnvVarSuggestion)
    (stdVar : EnvVarSuggestion) : List EnvVarSuggestion :=
  if prevKeys.contains stdVar.key then backfillFirst stdVar newVars
  else newVars ++ [stdVar]

/-- The mandatory-variable merge (before sorting): union the standard
variables into the list, appending missing keys and backfilling empty
values with non-empty standard defaults. -/
def mergeStandardVars (prev : List EnvVarSuggestion) : List EnvVarSuggestion :=
  STANDARD_LLM_VARS.foldl (mergeStd (prev.map (fun e => e.key))) prev

/-- The fixed priority list from the sort comparator. -/
def PRIORITY : List String :=
  ["HOST", "PORT", "LLM_PROVIDER", "OPENROUTER_API_KEY", "GOOGLE_API_KEY",
   "BASE_URL", "MODEL_NAME"]

/-- JavaScript `Array.prototype.indexOf`: index of first occurrence or `-1`. -/
def jsIndexOf (l : List String) (k : String) : Int :=
  match l.findIdx? (fun s => s == k) with
  | some i => (i : Int)
  | none => -1

/-- Model of `a.localeCompare(b)` as code-point comparison (sign only). -/
def localeCompareModel (a b : String) : Int :=
  if a < b then -1 else if b < a then 1 else 0

/-- The sort comparator from the merge `useEffect`. -/
def envCompare (a b : EnvVarSuggestion) : Int :=
  let idxA := jsIndexOf PRIORITY a.key
  let idxB := jsIndexOf PRIORITY b.key
  if idxA ≠ -1 ∧ idxB ≠ -1 then idxA - idxB
  else if idxA ≠ -1 then -1
  else if idxB ≠ -1 then 1
  else localeCompareModel a.key b.key

/-- Stable insertion: `x` is placed before the first element it compares
strictly below, after any tie.  This is the order produced by
`Array.prototype.sort` with a consistent comparator (stable since ES2019). -/
def insertSorted (cmp : EnvVarSuggestion → EnvVarSuggestion → Int)
    (x : EnvVarSuggestion) : List EnvVarSuggestion → List EnvVarSuggestion
  | [] => [x]
  | y :: ys => if cmp x y < 0 then x :: y :: ys else y :: insertSorted cmp x ys

/-- Stable sort by a JavaScript-style comparator. -/
def stableSort (cmp : EnvVarSuggestion → EnvVarSuggestion → Int)
    (l : List EnvVarSuggestion) : List EnvVarSuggestion :=
  l.foldl (fun acc x => insertSorted cmp x acc) []

/-- `newVars.sort(comparator)` from the merge `useEffect`. -/
def sortEnvVars (l : List EnvVarSuggestion) : List EnvVarSuggestion :=
  stableSort envCompare l

/-- The full merge `useEffect` body on the variable list: merge the
standard variables, then sort. -/
def mergeAndSortEnvVars (prev : List EnvVarSuggestion) : List EnvVarSuggestion :=
  sortEnvVars (mergeStandardVars prev)

/-- Whether an entry's key belongs to the comparator's priority list
(`indexOf` not `-1`). -/
def isPriorityVar (v : EnvVarSuggestion) : Bool :=
  jsIndexOf PRIORITY v.key != -1

/-- The deduplication in `dockerComposeContent`:
`envVars.filter((v, i, a) => a.findIndex(t => t.key === v.key) === i)`,
keeping the element at index `i` exactly when the first index holding its
key is `i`.  `i` tracks the absolute position in the full list `l`. -/
def uniqueEnvsAux (l : List EnvVarSuggestion) :
    Nat → List EnvVarSuggestion → List EnvVarSuggestion
  | _, [] => []
  | i, v :: vs =>
    if l.findIdx (fun t => t.key == v.key) = i then
      v :: uniqueEnvsAux l (i + 1) vs
    else uniqueEnvsAux l (i + 1) vs

/-- `uniqueEnvs` from `dockerComposeContent`. -/
def uniqueEnvs (l : List EnvVarSuggestion) : List EnvVarSuggestion :=
  uniqueEnvsAux l 0 l

/-- One environment line of the compose file: `      - KEY=${KEY}` —
the key is referenced for external substitution, never the value. -/
def composeEnvLine (k : String) : String :=
  "      - " ++ k ++ "=$\x7b" ++ k ++ "\x7d"

/-- The environment block: one line per deduplicated variable. -/
def composeEnvBlock (l : List EnvVarSuggestion) : String :=
  String.intercalate "\n" ((uniqueEnvs l).map (fun v => composeEnvLine v.key))

/-- `dockerComposeContent` from `AnalysisView`: the fixed template with the
port and the environment block spliced in (`envBlock || comment`). -/
def dockerComposeContent (l : List EnvVarSuggestion) (port : Nat) : String :=
  let envBlock := composeEnvBlock l
  "version: \x273.8\x27\nservices:\n  app:\n    build: .\n    restart: always\n    expose:\n      - \"" ++
    toString port ++
    "\"\n    networks:\n      - coolify\n    environment:\n" ++
    (if envBlock = "" then "      # No environment variables defined" else envBlock) ++
    "\n\nnetworks:\n  coolify:\n    external: true\n"

/-- Modelled from the spec: "deduplicate EnvVar by key (first occurrence
wins)".  Spec-side comparator definition for the refinement claim C5;
`seen` carries the keys already kept. -/
def keepFirstFrom (seen : List String) : List EnvVarSuggestion → List EnvVarSuggestion
  | [] => []
  | v :: vs =>
    if v.key ∈ seen then keepFirstFrom seen vs
    else v :: keepFirstFrom (v.key :: seen) vs

/-! ## The repository synchronization engine (`githubService`) -/

/-- Embedding of the `FileEntry` interface: a relative path plus the size
of the underlying `File` object (`file.fileObject.size`).  File bytes are
not needed: the engine base64-encodes them opaquely, and the oracle below
keys blob-upload outcomes by path. -/
structure FileEntry where
  path : String
  size : Nat
deriving DecidableEq, Repr

/-- `res.ok` of a `fetch` response: HTTP status in the 2xx range. -/
def jsOk (status : Nat) : Bool :=
  decide (200 ≤ status) && decide (status < 300)

/-- Oracle for every remote call `pushFilesToRepo` makes, in call order.
`refStatus` is the HTTP status of `GET git/refs/heads/main` (the source
only inspects `res.ok`); `refCommitSha` / `refTreeSha` are the parsed
`object.sha` and `tree.sha` when that branch is taken (the follow-up
commit fetch is not status-checked by the source).  A `none` blob sha
models `createBlob` throwing; file-blob outcomes are keyed by path. -/
structure GitHubEnv where
  refStatus : Nat
  refCommitSha : String
  refTreeSha : String
  dockerfileBlobSha : Option String
  composeBlobSha : Option String
  fileBlobSha : String → Option String
  treeOk : Bool
  treeSha : String
  commitOk : Bool
  newCommitSha : String
  updateOk : Bool

/-- One `onProgress(percent, status)` callback invocation. -/
structure Progress where
  percent : Nat
  message : String
deriving DecidableEq, Repr

/-- One element of the `treeItems` array sent to the tree-creation call. -/
structure TreeItem where
  path : String
  mode : String
  type : String
  sha : String
deriving DecidableEq, Repr

/-- The `commitPayload` object: message, tree sha, and the parents array
(empty when `parentCommitSha` was absent). -/
structure CommitPayload where
  message : String
  tree : String
  parents : List String
deriving DecidableEq, Repr

/-- Result of a run: a thrown error message, or normal completion (the
source resolves after the final `onProgress(100, 'Done!')`). -/
inductive PushOutcome where
  | thrown (msg : String)
  | completed
deriving DecidableEq, Repr

/-- Observable record of one `pushFilesToRepo` run: the full progress
trace, the resolved base tree / parent commit, the tree items accumulated
before any throw, the commit payload if the commit call was reached, and
the outcome. -/
structure PushRun where
  trace : List Progress
  baseTreeSha : Option String
  parentCommitSha : Option String
  treeItems : List TreeItem
  commitPayload : Option CommitPayload
  outcome : PushOutcome
deriving Repr

/-- The skip rule of the FILES phase: excluded directories
(`node_modules/`, `.git/`, `.next/`) or size above 1 MB. -/
def shouldSkip (f : FileEntry) : Bool :=
  jsIncludes f.path.toList "node_modules/" ||
  jsIncludes f.path.toList ".git/" ||
  jsIncludes f.path.toList ".next/" ||
  decide (f.size > 1024 * 1024)

/-- The `for (const file of files)` loop: skip excluded files, report
`30 + floor(processed / totalFiles * 40)`, upload the blob, and append a
tree item on success; a failed upload is caught and the file omitted.
Returns the progress events, the final `processed` counter, and the file
tree items, given the counter value at entry. -/
def filesLoop (env : GitHubEnv) (totalFiles : Nat) (processed : Nat) :
    List FileEntry → List Progress × Nat × List TreeItem
  | [] => ([], processed, [])
  | f :: fs =>
    if shouldSkip f then filesLoop env totalFiles processed fs
    else
      let p := processed + 1
      let pct := 30 + p * 40 / totalFiles
      let rest := filesLoop env totalFiles p fs
      let ev : Progress := ⟨pct, "Uploading " ++ f.path ++ "..."⟩
      match env.fileBlobSha f.path with
      | some sha => (ev :: rest.1, rest.2.1, ⟨f.path, "100644", "blob", sha⟩ :: rest.2.2)
      | none => (ev :: rest.1, rest.2.1, rest.2.2)

/-- `pushFilesToRepo` from `githubService`, as a pure function of the
remote-call oracle.  Phases in source order: resolve the branch tip
(non-2xx leaves base tree and parent absent), upload the two generated
artifacts, loop over user files, create the tree, create the commit
(parentless when no parent was resolved), force-update the ref, report
100. -/
def pushFilesToRepo (env : GitHubEnv) (files : List FileEntry)
    (dockerfile dockerCompose message : String) : PushRun :=
  let trace1 : List Progress := [⟨10, "Getting repo info..."⟩]
  let base : Option String × Option String :=
    if jsOk env.refStatus then (some env.refTreeSha, some env.refCommitSha)
    else (none, none)
  let baseTreeSha := base.1
  let parentCommitSha := base.2
  let trace2 := trace1 ++ [⟨20, "Uploading Dockerfile..."⟩]
  match env.dockerfileBlobSha with
  | none =>
    ⟨trace2, baseTreeSha, parentCommitSha, [], none, .thrown "Failed to create blob"⟩
  | some dsha =>
    let items1 : List TreeItem := [⟨"Dockerfile", "100644", "blob", dsha⟩]
    let trace3 := trace2 ++ [⟨25, "Uploading docker-compose.yaml..."⟩]
    match env.composeBlobSha with
    | none =>
      ⟨trace3, baseTreeSha, parentCommitSha, items1, none, .thrown "Failed to create blob"⟩
    | some csha =>
      let items2 := items1 ++ [⟨"docker-compose.yaml", "100644", "blob", csha⟩]
      let loop := filesLoop env files.length 0 files
      let items3 := items2 ++ loop.2.2
      let trace4 := trace3 ++ loop.1 ++ [⟨80, "Creating file tree..."⟩]
      if env.treeOk = false then
        ⟨trace4, baseTreeSha, parentCommitSha, items3, none, .thrown "Failed to create tree"⟩
      else
        let trace5 := trace4 ++ [⟨90, "Committing changes..."⟩]
        let parents : List String :=
          match parentCommitSha with
          | some s => [s]
          | none => []
        let payload : CommitPayload := ⟨message, env.treeSha, parents⟩
        if env.commitOk = false then
          ⟨trace5, baseTreeSha, parentCommitSha, items3, some payload,
            .thrown "Failed to create commit"⟩
        else
          let trace6 := trace5 ++ [⟨95, "Updating repository..."⟩]
          if env.updateOk = false then
            ⟨trace6, baseTreeSha, parentCommitSha, items3, some payload,
              .thrown "Failed to update ref"⟩
          else
            ⟨trace6 ++ [⟨100, "Done!"⟩], baseTreeSha, parentCommitSha, items3,
              some payload, .completed⟩

/-- The JSON body `createRepository` always sends. -/
structure RepoCreatePayload where
  name : String
  description : String
  isPrivate : Bool
  auto_init : Bool
deriving DecidableEq, Repr

/-- `createRepository` request payload: `auto_init` is hard-coded `true`
("Create with README so we have a base branch to commit to").  The deploy
flow (`handleDeploy`) calls this immediately before `pushFilesToRepo`. -/
def createRepositoryPayload (name description : String) (isPrivate : Bool) :
    RepoCreatePayload :=
  ⟨name, description, isPrivate, true⟩

/-- An oracle where every remote call succeeds. -/
def happyEnv : GitHubEnv :=
  ⟨200, "parentsha", "basetreesha", some "dsha", some "csha",
    fun p => some ("blob-" ++ p), true, "treesha", true, "commitsha", true⟩

/-- Same oracle but the ref resolution fails with an authorization error. -/
def authFailEnv : GitHubEnv :=
  ⟨401, "parentsha", "basetreesha", some "dsha", some "csha",
    fun p => some ("blob-" ++ p), true, "treesha", true, "commitsha", true⟩

/-- Replace only the status of the ref-resolution response. -/
def setRefStatus (e : GitHubEnv) (s : Nat) : GitHubEnv :=
  ⟨s, e.refCommitSha, e.refTreeSha, e.dockerfileBlobSha, e.composeBlobSha,
    e.fileBlobSha, e.treeOk, e.treeSha, e.commitOk, e.newCommitSha, e.updateOk⟩

/-- Number of files the FILES loop actually processes (not skipped). -/
def keptLen (fs : List FileEntry) : Nat :=
  (fs.filter (fun f => !shouldSkip f)).length

/-- A batch of ten small, non-excluded files. -/
def tenFiles : List FileEntry :=
  [⟨"f0.txt", 0⟩, ⟨"f1.txt", 0⟩, ⟨"f2.txt", 0⟩, ⟨"f3.txt", 0⟩, ⟨"f4.txt", 0⟩,
   ⟨"f5.txt", 0⟩, ⟨"f6.txt", 0⟩, ⟨"f7.txt", 0⟩, ⟨"f8.txt", 0⟩, ⟨"f9.txt", 0⟩]

/-- An oracle where exactly the `f3.txt` blob upload fails. -/
def oneFailEnv : GitHubEnv :=
  ⟨200, "parentsha", "basetreesha", some "dsha", some "csha",
    fun p => if p = "f3.txt" then none else some ("blob-" ++ p),
    true, "treesha", true, "commitsha", true⟩

example : (pushFilesToRepo happyEnv [⟨"a.txt", 5⟩] "FROM x" "cmp" "msg").outcome =
    PushOutcome.completed := by decide

example : (pushFilesToRepo happyEnv [⟨"a.txt", 5⟩] "FROM x" "cmp" "msg").trace.map
    (fun p => p.percent) = [10, 20, 25, 70, 80, 90, 95, 100] := by decide

example : cleanDockerfile "FROM node\nWORKDIR /app\nENV A=\"1\"\nCMD x"
    [⟨"B", "d", "", "2"⟩] = "FROM node\nWORKDIR /app\nENV B=\"2\"\nCMD x" := by decide

example : composeEnvBlock [⟨"A", "", "", "1"⟩, ⟨"A", "", "", "2"⟩, ⟨"B", "", "", ""⟩] =
    "      - A=$\x7bA\x7d\n      - B=$\x7bB\x7d" := by decide

/-! ## Helper lemmas about the FILES loop -/

/-- The FILES loop reads only the blob-upload oracle from the environment. -/
theorem filesLoop_congr (e1 e2 : GitHubEnv) (h : e1.fileBlobSha = e2.fileBlobSha)
    (T : Nat) : ∀ (fs : List FileEntry) (p : Nat),
    filesLoop e1 T p fs = filesLoop e2 T p fs
  | [], _ => rfl
  | f :: fs, p => by
    simp only [filesLoop, h, filesLoop_congr e1 e2 h T fs p,
      filesLoop_congr e1 e2 h T fs (p + 1)]

/-- The tree items the FILES loop produces: one `100644` blob entry per
non-skipped file whose upload succeeded, in batch order. -/
theorem filesLoop_items (env : GitHubEnv) (T : Nat) :
    ∀ (fs : List FileEntry) (p : Nat),
      (filesLoop env T p fs).2.2 =
        fs.filterMap (fun f =>
          if shouldSkip f then none
          else (env.fileBlobSha f.path).map
            (fun sha => (⟨f.path, "100644", "blob", sha⟩ : TreeItem)))
  | [], _ => rfl
  | f :: fs, p => by
    by_cases hs : shouldSkip f
    · simp [filesLoop, hs, filesLoop_items env T fs p]
    · cases hb : env.fileBlobSha f.path <;>
        simp [filesLoop, hs, hb, filesLoop_items env T fs (p + 1)]

/-- The percent values the FILES loop reports, given the entry counter:
`30 + q * 40 / T` for `q` running over the processed-file count. -/
theorem filesLoop_percents (env : GitHubEnv) (T : Nat) :
    ∀ (fs : List FileEntry) (p : Nat),
      ((filesLoop env T p fs).1).map (fun e => e.percent) =
        (List.range' (p + 1) (keptLen fs)).map (fun q => 30 + q * 40 / T)
  | [], _ => rfl
  | f :: fs, p => by
    by_cases hs : shouldSkip f
    · simp [filesLoop, hs, keptLen, filesLoop_percents env T fs p]
    · have hk : keptLen (f :: fs) = keptLen fs + 1 := by
        simp [keptLen, hs]
      cases hb : env.fileBlobSha f.path <;>
        simp [filesLoop, hs, hb, hk, List.range'_succ,
          filesLoop_percents env T fs (p + 1)]

/-- The tree-item array is the same in every branch after the two
artifact uploads: the two fixed artifacts then the file items. -/
theorem pushFilesToRepo_treeItems (env : GitHubEnv) (files : List FileEntry)
    (d c m : String) :
    (pushFilesToRepo env files d c m).treeItems =
      match env.dockerfileBlobSha with
      | none => []
      | some dsha =>
        match env.composeBlobSha with
        | none => [⟨"Dockerfile", "100644", "blob", dsha⟩]
        | some csha =>
          ⟨"Dockerfile", "100644", "blob", dsha⟩ ::
            ⟨"docker-compose.yaml", "100644", "blob", csha⟩ ::
              (filesLoop env files.length 0 files).2.2 := by
  cases hd : env.dockerfileBlobSha <;> cases hc : env.composeBlobSha <;>
    simp [pushFilesToRepo, hd, hc, apply_ite PushRun.treeItems, ite_self]

/-- The commit payload is produced exactly when the tree call succeeded,
and carries the resolved parent (or no parent). -/
theorem pushFilesToRepo_commitPayload (env : GitHubEnv) (files : List FileEntry)
    (d c m : String) :
    (pushFilesToRepo env files d c m).commitPayload =
      match env.dockerfileBlobSha, env.composeBlobSha with
      | some _, some _ =>
        if env.treeOk = false then none
        else some ⟨m, env.treeSha,
          if jsOk env.refStatus then [env.refCommitSha] else []⟩
      | _, _ => none := by
  cases hd : env.dockerfileBlobSha <;> cases hc : env.composeBlobSha <;>
    cases hr : jsOk env.refStatus <;>
      simp [pushFilesToRepo, hd, hc, hr, apply_ite PushRun.commitPayload, ite_self]

/-- The resolved base tree and parent commit only depend on `res.ok` of
the ref-resolution response. -/
theorem pushFilesToRepo_base (env : GitHubEnv) (files : List FileEntry)
    (d c m : String) :
    (pushFilesToRepo env files d c m).baseTreeSha =
      (if jsOk env.refStatus then some env.refTreeSha else none) ∧
    (pushFilesToRepo env files d c m).parentCommitSha =
      (if jsOk env.refStatus then some env.refCommitSha else none) := by
  cases hd : env.dockerfileBlobSha <;> cases hc : env.composeBlobSha <;>
    cases hr : jsOk env.refStatus <;>
      simp [pushFilesToRepo, hd, hc, hr, apply_ite PushRun.baseTreeSha,
        apply_ite PushRun.parentCommitSha, ite_self]

/-! ## Claim C1 -/

/-- Claim C1 as stated is false: here the ref resolution returns a 401
(authorization failure), yet the run is not fatal — it proceeds through
every later phase, performs the remaining remote calls and completes with
percent 100, exactly as for a genuine branch absence. -/
theorem C1_counterexample :
    (pushFilesToRepo authFailEnv [] "FROM x" "cmp" "msg").outcome =
      PushOutcome.completed ∧
    (pushFilesToRepo authFailEnv [] "FROM x" "cmp" "msg").trace.map
      (fun e => e.percent) = [10, 20, 25, 80, 90, 95, 100] := by
  constructor <;> decide

/-- Claim C1 amended: the code distinguishes only `res.ok` from not-ok
when resolving the branch tip.  Every non-2xx response — a 404 for a
missing branch as much as a 401/500 authorization or server failure — is
treated as the non-fatal empty-history case: base tree and parent commit
are absent and the run is otherwise bitwise identical whichever non-ok
status occurred. -/
theorem C1_nonok_ref_treated_as_empty_history (env : GitHubEnv) (s : Nat)
    (files : List FileEntry) (d c m : String)
    (h1 : jsOk env.refStatus = false) (h2 : jsOk s = false) :
    (pushFilesToRepo env files d c m).baseTreeSha = none ∧
    (pushFilesToRepo env files d c m).parentCommitSha = none ∧
    pushFilesToRepo (setRefStatus env s) files d c m =
      pushFilesToRepo env files d c m := by
  refine ⟨?_, ?_, ?_⟩
  · rw [(pushFilesToRepo_base env files d c m).1, h1]; rfl
  · rw [(pushFilesToRepo_base env files d c m).2, h1]; rfl
  · have hfl : filesLoop (setRefStatus env s) files.length 0 files =
        filesLoop env files.length 0 files :=
      filesLoop_congr (setRefStatus env s) env rfl files.length files 0
    simp only [pushFilesToRepo, setRefStatus, h1, h2]
    simp only [setRefStatus] at hfl
    rw [hfl]

/-- Witness for C1's amended theorem at a concrete 401 environment and a
concrete second non-ok status 500. -/
theorem C1_witness :
    (pushFilesToRepo authFailEnv [] "FROM x" "cmp" "msg").baseTreeSha = none ∧
    (pushFilesToRepo authFailEnv [] "FROM x" "cmp" "msg").parentCommitSha = none ∧
    pushFilesToRepo (setRefStatus authFailEnv 500) [] "FROM x" "cmp" "msg" =
      pushFilesToRepo authFailEnv [] "FROM x" "cmp" "msg" :=
  C1_nonok_ref_treated_as_empty_history authFailEnv 500 [] "FROM x" "cmp" "msg"
    (by decide) (by decide)

/-! ## Claim C7 -/

/-- Claim C7: when the target branch does not exist at the start of a run
(ref resolution not ok), the run raises no error from that: with every
other remote call succeeding it completes, the base tree and parent commit
are absent, the tree is built without a base, and the commit payload has
no parent. -/
theorem C7_missing_branch_not_fatal (env : GitHubEnv) (files : List FileEntry)
    (d c m : String) (h1 : jsOk env.refStatus = false)
    (h2 : env.dockerfileBlobSha.isSome) (h3 : env.composeBlobSha.isSome)
    (h4 : env.treeOk = true) (h5 : env.commitOk = true) (h6 : env.updateOk = true) :
    (pushFilesToRepo env files d c m).outcome = PushOutcome.completed ∧
    (pushFilesToRepo env files d c m).baseTreeSha = none ∧
    (pushFilesToRepo env files d c m).parentCommitSha = none ∧
    (pushFilesToRepo env files d c m).commitPayload = some ⟨m, env.treeSha, []⟩ := by
  rcases Option.isSome_iff_exists.mp h2 with ⟨dsha, hd⟩
  rcases Option.isSome_iff_exists.mp h3 with ⟨csha, hc⟩
  refine ⟨?_, ?_, ?_, ?_⟩
  · simp [pushFilesToRepo, hd, hc, h1, h4, h5, h6]
  · rw [(pushFilesToRepo_base env files d c m).1, h1]; rfl
  · rw [(pushFilesToRepo_base env files d c m).2, h1]; rfl
  · rw [pushFilesToRepo_commitPayload]
    simp [hd, hc, h1, h4]

/-- Witness for C7 at a concrete 404 environment. -/
theorem C7_witness :
    (pushFilesToRepo (setRefStatus happyEnv 404) [] "f" "c" "m").outcome =
      PushOutcome.completed ∧
    (pushFilesToRepo (setRefStatus happyEnv 404) [] "f" "c" "m").baseTreeSha = none ∧
    (pushFilesToRepo (setRefStatus happyEnv 404) [] "f" "c" "m").parentCommitSha =
      none ∧
    (pushFilesToRepo (setRefStatus happyEnv 404) [] "f" "c" "m").commitPayload =
      some ⟨"m", "treesha", []⟩ :=
  C7_missing_branch_not_fatal (setRefStatus happyEnv 404) [] "f" "c" "m"
    (by decide) (by decide) (by decide) (by decide) (by decide) (by decide)

/-! ## Claim C9 -/

/-- Claim C9: every tree entry the sync engine creates — the two generated
artifacts and every uploaded user file — has mode `100644` and type
`blob`; no entry is ever created with executable mode. -/
theorem C9_every_tree_entry_is_regular_blob (env : GitHubEnv)
    (files : List FileEntry) (d c m : String) (it : TreeItem)
    (hin : it ∈ (pushFilesToRepo env files d c m).treeItems) :
    it.mode = "100644" ∧ it.type = "blob" := by
  have hloop : ∀ x ∈ (filesLoop env files.length 0 files).2.2,
      x.mode = "100644" ∧ x.type = "blob" := by
    intro x hx
    rw [filesLoop_items] at hx
    rcases List.mem_filterMap.mp hx with ⟨f, _, hsome⟩
    by_cases hs : shouldSkip f
    · simp [hs] at hsome
    · simp [hs] at hsome
      obtain ⟨sha, hsha, hit⟩ := hsome
      subst hit
      exact ⟨rfl, rfl⟩
  rw [pushFilesToRepo_treeItems] at hin
  cases hd : env.dockerfileBlobSha <;> rw [hd] at hin
  · simp at hin
  · cases hc : env.composeBlobSha <;> rw [hc] at hin
    · simp at hin
      subst hin
      exact ⟨rfl, rfl⟩
    · rcases List.mem_cons.mp hin with hin | hin
      · subst hin; exact ⟨rfl, rfl⟩
      rcases List.mem_cons.mp hin with hin | hin
      · subst hin; exact ⟨rfl, rfl⟩
      exact hloop it hin

/-- Witness for C9: a concrete user-file entry of a concrete successful
run has regular-file mode and blob type. -/
theorem C9_witness :
    (⟨"a.txt", "100644", "blob", "blob-a.txt"⟩ : TreeItem) ∈
      (pushFilesToRepo happyEnv [⟨"a.txt", 5⟩] "f" "c" "m").treeItems ∧
    ((⟨"a.txt", "100644", "blob", "blob-a.txt"⟩ : TreeItem).mode = "100644" ∧
      (⟨"a.txt", "100644", "blob", "blob-a.txt"⟩ : TreeItem).type = "blob") :=
  ⟨by decide,
    C9_every_tree_entry_is_regular_blob happyEnv [⟨"a.txt", 5⟩] "f" "c" "m"
      ⟨"a.txt", "100644", "blob", "blob-a.txt"⟩ (by decide)⟩

/-! ## Claim C10 -/

/-- Claim C10: the repository created right before each sync run always
has `auto_init` set to `true` in its creation payload, and inside
`pushFilesToRepo` the parentless-commit (empty-history) path is taken
exactly when the ref-resolution request fails (`res.ok` false) — never
when a branch tip was resolved. -/
theorem C10_auto_init_and_parentless_only_on_ref_failure :
    (∀ (n d : String) (p : Bool), (createRepositoryPayload n d p).auto_init = true) ∧
    (∀ (env : GitHubEnv) (files : List FileEntry) (dfile cmp m : String)
        (pl : CommitPayload),
      (pushFilesToRepo env files dfile cmp m).commitPayload = some pl →
      (pl.parents = [] ↔ jsOk env.refStatus = false)) := by
  constructor
  · intro n d p
    rfl
  · intro env files dfile cmp m pl hpl
    rw [pushFilesToRepo_commitPayload] at hpl
    cases hd : env.dockerfileBlobSha <;> rw [hd] at hpl
    · simp at hpl
    cases hc : env.composeBlobSha <;> rw [hc] at hpl
    · simp at hpl
    by_cases ht : env.treeOk = false
    · simp [ht] at hpl
    · simp [ht] at hpl
      cases hr : jsOk env.refStatus <;> rw [hr] at hpl <;> subst hpl <;> simp

/-- Witness for C10 at a concrete repository payload and a concrete run
whose ref resolution succeeded (therefore a parented commit). -/
theorem C10_witness :
    (createRepositoryPayload "repo" "desc" false).auto_init = true ∧
    ((⟨"m", "treesha", ["parentsha"]⟩ : CommitPayload).parents = [] ↔
      jsOk happyEnv.refStatus = false) :=
  ⟨C10_auto_init_and_parentless_only_on_ref_failure.1 "repo" "desc" false,
    C10_auto_init_and_parentless_only_on_ref_failure.2 happyEnv [] "f" "c" "m"
      ⟨"m", "treesha", ["parentsha"]⟩ (by decide)⟩

/-! ## Claim C4 -/

/-- Filtering by upload success partitions the batch. -/
theorem length_filter_blob_split (env : GitHubEnv) :
    ∀ files : List FileEntry,
      (files.filter (fun f => (env.fileBlobSha f.path).isSome)).length +
        (files.filter (fun f => (env.fileBlobSha f.path).isNone)).length =
        files.length
  | [] => rfl
  | f :: fs => by
    have ih := length_filter_blob_split env fs
    cases hb : env.fileBlobSha f.path <;> simp [hb] <;> omega

/-- On a batch with no skipped files, the loop's item paths are exactly
the paths whose upload succeeded, in order. -/
theorem filesLoop_paths_of_no_skip (env : GitHubEnv) (T : Nat) :
    ∀ (fs : List FileEntry), (∀ f ∈ fs, shouldSkip f = false) → ∀ p : Nat,
      ((filesLoop env T p fs).2.2).map (fun it => it.path) =
        (fs.filter (fun f => (env.fileBlobSha f.path).isSome)).map
          (fun f => f.path)
  | [], _, _ => rfl
  | f :: fs, hk, p => by
    have hs : shouldSkip f = false := hk f (List.mem_cons_self f fs)
    have hrest : ∀ g ∈ fs, shouldSkip g = false :=
      fun g hg => hk g (List.mem_cons_of_mem f hg)
    cases hb : env.fileBlobSha f.path <;>
      simp [filesLoop, hs, hb, filesLoop_paths_of_no_skip env T fs hrest (p + 1)]

/-- Claim C4: a single file's upload failure never aborts the run.  For a
batch of ten non-excluded files where exactly one file's blob upload fails
(and the phase-level calls succeed), the run completes, the tree holds the
two mandatory artifacts plus exactly the nine successful files, and the
failed file is omitted. -/
theorem C4_single_upload_failure_is_skipped (env : GitHubEnv)
    (files : List FileEntry) (d c m : String)
    (hkeep : ∀ f ∈ files, shouldSkip f = false)
    (hone : (files.filter (fun f => (env.fileBlobSha f.path).isNone)).length = 1)
    (hlen : files.length = 10)
    (hd : env.dockerfileBlobSha.isSome) (hc : env.composeBlobSha.isSome)
    (ht : env.treeOk = true) (hcm : env.commitOk = true) (hu : env.updateOk = true) :
    (pushFilesToRepo env files d c m).outcome = PushOutcome.completed ∧
    ((pushFilesToRepo env files d c m).treeItems).map (fun it => it.path) =
      "Dockerfile" :: "docker-compose.yaml" ::
        (files.filter (fun f => (env.fileBlobSha f.path).isSome)).map
          (fun f => f.path) ∧
    (files.filter (fun f => (env.fileBlobSha f.path).isSome)).length = 9 := by
  rcases Option.isSome_iff_exists.mp hd with ⟨dsha, hd'⟩
  rcases Option.isSome_iff_exists.mp hc with ⟨csha, hc'⟩
  refine ⟨?_, ?_, ?_⟩
  · cases hr : jsOk env.refStatus <;>
      simp [pushFilesToRepo, hd', hc', hr, ht, hcm, hu]
  · rw [pushFilesToRepo_treeItems, hd', hc']
    simp [filesLoop_paths_of_no_skip env files.length files hkeep 0]
  · have := length_filter_blob_split env files
    omega

/-- Witness for C4: the concrete ten-file batch with exactly the `f3.txt`
upload failing yields a completed run and an eleven-entry tree without
`f3.txt`. -/
theorem C4_witness :
    (pushFilesToRepo oneFailEnv tenFiles "f" "c" "m").outcome =
      PushOutcome.completed ∧
    ((pushFilesToRepo oneFailEnv tenFiles "f" "c" "m").treeItems).map
      (fun it => it.path) =
      ["Dockerfile", "docker-compose.yaml", "f0.txt", "f1.txt", "f2.txt",
       "f4.txt", "f5.txt", "f6.txt", "f7.txt", "f8.txt", "f9.txt"] ∧
    (tenFiles.filter (fun f => (oneFailEnv.fileBlobSha f.path).isSome)).length =
      9 := by
  have h := C4_single_upload_failure_is_skipped oneFailEnv tenFiles "f" "c" "m"
    (by decide) (by decide) (by decide) (by decide) (by decide) (by decide)
    (by decide) (by decide)
  exact ⟨h.1, h.2.1.trans (by decide), h.2.2⟩

/-! ## Claim C3 -/

/-- The percent values of the whole progress trace, branch by branch. -/
theorem pushFilesToRepo_percents (env : GitHubEnv) (files : List FileEntry)
    (d c m : String) :
    ((pushFilesToRepo env files d c m).trace).map (fun e => e.percent) =
      match env.dockerfileBlobSha with
      | none => [10, 20]
      | some _ =>
        match env.composeBlobSha with
        | none => [10, 20, 25]
        | some _ =>
          10 :: 20 :: 25 ::
            (((filesLoop env files.length 0 files).1).map (fun e => e.percent) ++
              (if env.treeOk = false then [80]
               else if env.commitOk = false then [80, 90]
               else if env.updateOk = false then [80, 90, 95]
               else [80, 90, 95, 100])) := by
  cases hd : env.dockerfileBlobSha <;> cases hc : env.composeBlobSha <;>
    by_cases ht : env.treeOk = false <;> by_cases hcm : env.commitOk = false <;>
      by_cases hu : env.updateOk = false <;>
        simp [pushFilesToRepo, hd, hc, ht, hcm, hu]

/-- The outcome of the run, branch by branch. -/
theorem pushFilesToRepo_outcome (env : GitHubEnv) (files : List FileEntry)
    (d c m : String) :
    (pushFilesToRepo env files d c m).outcome =
      match env.dockerfileBlobSha, env.composeBlobSha with
      | none, _ => PushOutcome.thrown "Failed to create blob"
      | some _, none => PushOutcome.thrown "Failed to create blob"
      | some _, some _ =>
        if env.treeOk = false then PushOutcome.thrown "Failed to create tree"
        else if env.commitOk = false then PushOutcome.thrown "Failed to create commit"
        else if env.updateOk = false then PushOutcome.thrown "Failed to update ref"
        else PushOutcome.completed := by
  cases hd : env.dockerfileBlobSha <;> cases hc : env.composeBlobSha <;>
    by_cases ht : env.treeOk = false <;> by_cases hcm : env.commitOk = false <;>
      by_cases hu : env.updateOk = false <;>
        simp [pushFilesToRepo, hd, hc, ht, hcm, hu, apply_ite PushRun.outcome]

/-- Mapping a monotone function over a contiguous range gives a
non-decreasing chain. -/
theorem chain'_le_map_range' (f : Nat → Nat) (hf : ∀ a b, a ≤ b → f a ≤ f b) :
    ∀ (n s : Nat), List.Chain' (fun a b => a ≤ b) ((List.range' s n).map f)
  | 0, _ => by simp
  | n + 1, s => by
    rw [List.range'_succ s n 1, List.map_cons, List.chain'_cons']
    refine ⟨?_, chain'_le_map_range' f hf n (s + 1)⟩
    intro y hy
    cases n with
    | zero => simp at hy
    | succ k =>
      rw [List.range'_succ (s + 1) k 1, List.map_cons] at hy
      simp at hy
      subst hy
      exact hf s (s + 1) (Nat.le_succ s)

/-- The per-file percent formula stays in the 30–70 band while the
processed count stays within the batch size. -/
theorem loop_pct_le (T q : Nat) (hq : q ≤ T) (hT : 0 < T) :
    30 + q * 40 / T ≤ 70 := by
  have h2 : q * 40 / T ≤ T * 40 / T :=
    Nat.div_le_div_right (Nat.mul_le_mul_right 40 hq)
  have h3 : T * 40 / T = 40 := Nat.mul_div_cancel_left 40 hT
  omega

/-- Assembling the full progress chain: the three fixed prefix reports,
then the loop band, then the fixed suffix starting at 80. -/
theorem chain'_le_full (L : List Nat) (hc : List.Chain' (fun a b => a ≤ b) L)
    (hlo : ∀ x ∈ L, 30 ≤ x) (hhi : ∀ x ∈ L, x ≤ 70) (tail : List Nat)
    (ht : List.Chain' (fun a b => a ≤ b) (80 :: tail)) :
    List.Chain' (fun a b => a ≤ b) (10 :: 20 :: 25 :: (L ++ 80 :: tail)) := by
  have h2 : List.Chain' (fun a b => a ≤ b) (L ++ 80 :: tail) := by
    rw [List.chain'_append]
    refine ⟨hc, ht, ?_⟩
    intro x hx y hy
    simp at hy
    subst hy
    exact le_trans (hhi x (List.mem_of_mem_getLast? hx)) (by omega)
  refine List.chain'_cons'.mpr ⟨?_, List.chain'_cons'.mpr ⟨?_,
    List.chain'_cons'.mpr ⟨?_, h2⟩⟩⟩
  · intro y hy
    simp at hy
    omega
  · intro y hy
    simp at hy
    omega
  · intro y hy
    cases L with
    | nil =>
      simp at hy
      omega
    | cons a L' =>
      simp at hy
      have := hlo a (List.mem_cons_self a L')
      omega

/-- Claim C3: for every run — successful or failed, over any batch — the
percent values delivered to the progress callback are non-decreasing, and
the run ends either with a final report of exactly 100 (on success) or
with a thrown error whose trace never reaches 100 — never both. -/
theorem C3_monotone_progress (env : GitHubEnv) (files : List FileEntry)
    (d c m : String) :
    List.Chain' (fun a b => a ≤ b)
      (((pushFilesToRepo env files d c m).trace).map (fun e => e.percent)) ∧
    ((pushFilesToRepo env files d c m).outcome = PushOutcome.completed →
      (((pushFilesToRepo env files d c m).trace).map (fun e => e.percent)).getLast? =
        some 100) ∧
    (∀ msg, (pushFilesToRepo env files d c m).outcome = PushOutcome.thrown msg →
      ∀ q ∈ ((pushFilesToRepo env files d c m).trace).map (fun e => e.percent),
        q < 100) := by
  have hper : ((filesLoop env files.length 0 files).1).map (fun e => e.percent) =
      (List.range' 1 (keptLen files)).map (fun q => 30 + q * 40 / files.length) :=
    filesLoop_percents env files.length files 0
  have hchainL : List.Chain' (fun a b => a ≤ b)
      (((filesLoop env files.length 0 files).1).map (fun e => e.percent)) := by
    rw [hper]
    refine chain'_le_map_range' _ ?_ _ _
    intro a b hab
    have h : a * 40 / files.length ≤ b * 40 / files.length :=
      Nat.div_le_div_right (Nat.mul_le_mul_right 40 hab)
    omega
  have hloL : ∀ x ∈ ((filesLoop env files.length 0 files).1).map (fun e => e.percent),
      30 ≤ x := by
    rw [hper]
    intro x hx
    rcases List.mem_map.mp hx with ⟨q, _, rfl⟩
    exact Nat.le_add_right 30 _
  have hhiL : ∀ x ∈ ((filesLoop env files.length 0 files).1).map (fun e => e.percent),
      x ≤ 70 := by
    rw [hper]
    intro x hx
    rcases List.mem_map.mp hx with ⟨q, hq, rfl⟩
    have hqr := List.mem_range'_1.mp hq
    have hkT : keptLen files ≤ files.length := List.length_filter_le _ _
    exact loop_pct_le files.length q (by omega) (by omega)
  cases hd : env.dockerfileBlobSha with
  | none =>
    have hP : ((pushFilesToRepo env files d c m).trace).map (fun e => e.percent) =
        [10, 20] := by
      rw [pushFilesToRepo_percents, hd]
    have hO : (pushFilesToRepo env files d c m).outcome =
        PushOutcome.thrown "Failed to create blob" := by
      rw [pushFilesToRepo_outcome, hd]
    rw [hP, hO]
    refine ⟨by simp, ?_, ?_⟩
    · intro hcontra
      simp at hcontra
    · intro msg hmsg q hq
      simp at hq
      omega
  | some dsha =>
    cases hc : env.composeBlobSha with
    | none =>
      have hP : ((pushFilesToRepo env files d c m).trace).map (fun e => e.percent) =
          [10, 20, 25] := by
        rw [pushFilesToRepo_percents, hd, hc]
      have hO : (pushFilesToRepo env files d c m).outcome =
          PushOutcome.thrown "Failed to create blob" := by
        rw [pushFilesToRepo_outcome, hd, hc]
      rw [hP, hO]
      refine ⟨by simp, ?_, ?_⟩
      · intro hcontra
        simp at hcontra
      · intro msg hmsg q hq
        simp at hq
        omega
    | some csha =>
      cases ht : env.treeOk with
      | false =>
        have hP : ((pushFilesToRepo env files d c m).trace).map (fun e => e.percent) =
            10 :: 20 :: 25 ::
              (((filesLoop env files.length 0 files).1).map (fun e => e.percent) ++
                [80]) := by
          rw [pushFilesToRepo_percents, hd, hc]
          simp [ht]
        have hO : (pushFilesToRepo env files d c m).outcome =
            PushOutcome.thrown "Failed to create tree" := by
          rw [pushFilesToRepo_outcome, hd, hc]
          simp [ht]
        rw [hP, hO]
        refine ⟨chain'_le_full _ hchainL hloL hhiL [] (by simp), ?_, ?_⟩
        · intro hcontra
          simp at hcontra
        · intro msg hmsg q hq
          rcases List.mem_cons.mp hq with rfl | hq
          · omega
          rcases List.mem_cons.mp hq with rfl | hq
          · omega
          rcases List.mem_cons.mp hq with rfl | hq
          · omega
          rcases List.mem_append.mp hq with hq | hq
          · have := hhiL q hq
            omega
          · simp at hq
            omega
      | true =>
        cases hcm : env.commitOk with
        | false =>
          have hP : ((pushFilesToRepo env files d c m).trace).map (fun e => e.percent) =
              10 :: 20 :: 25 ::
                (((filesLoop env files.length 0 files).1).map (fun e => e.percent) ++
                  [80, 90]) := by
            rw [pushFilesToRepo_percents, hd, hc]
            simp [ht, hcm]
          have hO : (pushFilesToRepo env files d c m).outcome =
              PushOutcome.thrown "Failed to create commit" := by
            rw [pushFilesToRepo_outcome, hd, hc]
            simp [ht, hcm]
          rw [hP, hO]
          refine ⟨chain'_le_full _ hchainL hloL hhiL [90] (by simp), ?_, ?_⟩
          · intro hcontra
            simp at hcontra
          · intro msg hmsg q hq
            rcases List.mem_cons.mp hq with rfl | hq
            · omega
            rcases List.mem_cons.mp hq with rfl | hq
            · omega
            rcases List.mem_cons.mp hq with rfl | hq
            · omega
            rcases List.mem_append.mp hq with hq | hq
            · have := hhiL q hq
              omega
            · simp at hq
              omega
        | true =>
          cases hu : env.updateOk with
          | false =>
            have hP : ((pushFilesToRepo env files d c m).trace).map (fun e => e.percent) =
                10 :: 20 :: 25 ::
                  (((filesLoop env files.length 0 files).1).map (fun e => e.percent) ++
                    [80, 90, 95]) := by
              rw [pushFilesToRepo_percents, hd, hc]
              simp [ht, hcm, hu]
            have hO : (pushFilesToRepo env files d c m).outcome =
                PushOutcome.thrown "Failed to update ref" := by
              rw [pushFilesToRepo_outcome, hd, hc]
              simp [ht, hcm, hu]
            rw [hP, hO]
            refine ⟨chain'_le_full _ hchainL hloL hhiL [90, 95] (by simp), ?_, ?_⟩
            · intro hcontra
              simp at hcontra
            · intro msg hmsg q hq
              rcases List.mem_cons.mp hq with rfl | hq
              · omega
              rcases List.mem_cons.mp hq with rfl | hq
              · omega
              rcases List.mem_cons.mp hq with rfl | hq
              · omega
              rcases List.mem_append.mp hq with hq | hq
              · have := hhiL q hq
                omega
              · simp at hq
                omega
          | true =>
            have hP : ((pushFilesToRepo env files d c m).trace).map (fun e => e.percent) =
                10 :: 20 :: 25 ::
                  (((filesLoop env files.length 0 files).1).map (fun e => e.percent) ++
                    [80, 90, 95, 100]) := by
              rw [pushFilesToRepo_percents, hd, hc]
              simp [ht, hcm, hu]
            have hO : (pushFilesToRepo env files d c m).outcome =
                PushOutcome.completed := by
              rw [pushFilesToRepo_outcome, hd, hc]
              simp [ht, hcm, hu]
            rw [hP, hO]
            refine ⟨chain'_le_full _ hchainL hloL hhiL [90, 95, 100] (by simp),
              ?_, ?_⟩
            · intro _
              have hshape :
                  10 :: 20 :: 25 ::
                    (((filesLoop env files.length 0 files).1).map (fun e => e.percent) ++
                      [80, 90, 95, 100]) =
                  ([10, 20, 25] ++
                    ((filesLoop env files.length 0 files).1).map (fun e => e.percent)) ++
                    [80, 90, 95, 100] := by
                simp
              rw [hshape, List.getLast?_append_of_ne_nil _ (by simp)]
              rfl
            · intro msg hmsg
              simp at hmsg

/-- Witness for C3 at a concrete fully-successful run. -/
theorem C3_witness :
    List.Chain' (fun a b => a ≤ b)
      (((pushFilesToRepo happyEnv [⟨"a.txt", 5⟩] "f" "c" "m").trace).map
        (fun e => e.percent)) ∧
    (((pushFilesToRepo happyEnv [⟨"a.txt", 5⟩] "f" "c" "m").trace).map
      (fun e => e.percent)).getLast? = some 100 := by
  have h := C3_monotone_progress happyEnv [⟨"a.txt", 5⟩] "f" "c" "m"
  exact ⟨h.1, h.2.1 (by decide)⟩

/-! ## Claim C5 -/

/-- `findIdx` on an append: the first block wins when it has a match. -/
theorem findIdx_append_split {α : Type} (p : α → Bool) :
    ∀ (pre suf : List α),
      (pre ++ suf).findIdx p =
        if pre.any p then pre.findIdx p else pre.length + suf.findIdx p
  | [], suf => by simp
  | a :: pre, suf => by
    rw [List.cons_append, List.findIdx_cons p a (pre ++ suf),
      List.findIdx_cons p a pre]
    cases hpa : p a with
    | true => simp [List.any_cons, hpa]
    | false =>
      simp only [List.any_cons, hpa, Bool.false_or, cond_false,
        findIdx_append_split p pre suf]
      by_cases h : pre.any p = true <;> simp [h] <;> omega

/-- The source's indexed-`filter` deduplication agrees with spec-side
first-occurrence deduplication, tracking already-seen keys. -/
theorem uniqueEnvsAux_eq_keepFirstFrom (l : List EnvVarSuggestion) :
    ∀ (suf pre : List EnvVarSuggestion) (seen : List String),
      l = pre ++ suf →
      (∀ k, k ∈ pre.map (fun e => e.key) ↔ k ∈ seen) →
      uniqueEnvsAux l pre.length suf = keepFirstFrom seen suf
  | [], _, _, _, _ => rfl
  | w :: ws, pre, seen, hl, hseen => by
    have hsplit := findIdx_append_split (fun t => t.key == w.key) pre (w :: ws)
    rw [← hl] at hsplit
    by_cases hmem : w.key ∈ seen
    · have hpre : w.key ∈ pre.map (fun e => e.key) := (hseen w.key).mpr hmem
      rcases List.mem_map.mp hpre with ⟨v, hv, hk⟩
      have hany : pre.any (fun t => t.key == w.key) = true :=
        List.any_eq_true.mpr ⟨v, hv, by simp [hk]⟩
      have hlt : pre.findIdx (fun t => t.key == w.key) < pre.length :=
        List.findIdx_lt_length_of_exists ⟨v, hv, by simp [hk]⟩
      have hcond : ¬ l.findIdx (fun t => t.key == w.key) = pre.length := by
        rw [hsplit, if_pos hany]
        omega
      have hrec := uniqueEnvsAux_eq_keepFirstFrom l ws (pre ++ [w]) seen
        (by rw [hl, List.append_assoc]; rfl)
        (by
          intro k
          simp only [List.map_append, List.mem_append, List.map_cons,
            List.map_nil, List.mem_singleton]
          rw [hseen k]
          constructor
          · intro hor
            rcases hor with hor | hor
            · exact hor
            · rw [hor]; exact hmem
          · exact fun hk2 => Or.inl hk2)
      simp only [uniqueEnvsAux, if_neg hcond, keepFirstFrom, if_pos hmem]
      have hlen : pre.length + 1 = (pre ++ [w]).length := by simp
      rw [hlen]
      exact hrec
    · have hpre : w.key ∉ pre.map (fun e => e.key) :=
        fun hk => hmem ((hseen w.key).mp hk)
      have hany : pre.any (fun t => t.key == w.key) = false := by
        rw [Bool.eq_false_iff]
        intro hk
        rcases List.any_eq_true.mp hk with ⟨v, hv, hvk⟩
        exact hpre (List.mem_map.mpr ⟨v, hv, by simpa using hvk⟩)
      have hcond : l.findIdx (fun t => t.key == w.key) = pre.length := by
        rw [hsplit, if_neg (by rw [hany]; simp)]
        rw [List.findIdx_cons]
        simp
      have hrec := uniqueEnvsAux_eq_keepFirstFrom l ws (pre ++ [w]) (w.key :: seen)
        (by rw [hl, List.append_assoc]; rfl)
        (by
          intro k
          simp only [List.map_append, List.mem_append, List.map_cons,
            List.map_nil, List.mem_singleton, List.mem_cons]
          rw [hseen k]
          tauto)
      simp only [uniqueEnvsAux, if_pos hcond, keepFirstFrom, if_neg hmem]
      have hlen : pre.length + 1 = (pre ++ [w]).length := by simp
      rw [hlen]
      rw [hrec]

/-- The deduplication in `dockerComposeContent` is exactly spec-side
first-occurrence deduplication. -/
theorem uniqueEnvs_eq_keepFirst (l : List EnvVarSuggestion) :
    uniqueEnvs l = keepFirstFrom [] l :=
  uniqueEnvsAux_eq_keepFirstFrom l l [] [] rfl (by simp)

/-- Keys kept by first-occurrence deduplication avoid the seen set. -/
theorem keepFirstFrom_not_seen :
    ∀ (l : List EnvVarSuggestion) (seen : List String) (v : EnvVarSuggestion),
      v ∈ keepFirstFrom seen l → v.key ∉ seen
  | [], _, _, hv => by simp [keepFirstFrom] at hv
  | w :: ws, seen, v, hv => by
    by_cases hmem : w.key ∈ seen
    · rw [keepFirstFrom, if_pos hmem] at hv
      exact keepFirstFrom_not_seen ws seen v hv
    · rw [keepFirstFrom, if_neg hmem] at hv
      rcases List.mem_cons.mp hv with rfl | hv
      · exact hmem
      · have := keepFirstFrom_not_seen ws (w.key :: seen) v hv
        intro hk
        exact this (List.mem_cons_of_mem _ hk)

/-- The keys surviving first-occurrence deduplication are pairwise
distinct. -/
theorem keepFirstFrom_keys_nodup :
    ∀ (l : List EnvVarSuggestion) (seen : List String),
      ((keepFirstFrom seen l).map (fun v => v.key)).Nodup
  | [], _ => by simp [keepFirstFrom]
  | w :: ws, seen => by
    by_cases hmem : w.key ∈ seen
    · rw [keepFirstFrom, if_pos hmem]
      exact keepFirstFrom_keys_nodup ws seen
    · rw [keepFirstFrom, if_neg hmem]
      rw [List.map_cons, List.nodup_cons]
      refine ⟨?_, keepFirstFrom_keys_nodup ws (w.key :: seen)⟩
      intro hk
      rcases List.mem_map.mp hk with ⟨v, hv, hvk⟩
      exact keepFirstFrom_not_seen ws (w.key :: seen) v hv
        (by rw [hvk]; exact List.mem_cons_self _ _)

/-- Membership among deduplicated keys. -/
theorem keepFirstFrom_mem_keys :
    ∀ (l : List EnvVarSuggestion) (seen : List String) (k : String),
      (k ∈ (keepFirstFrom seen l).map (fun v => v.key)) ↔
        (k ∈ l.map (fun v => v.key) ∧ k ∉ seen)
  | [], seen, k => by simp [keepFirstFrom]
  | w :: ws, seen, k => by
    by_cases hmem : w.key ∈ seen
    · rw [keepFirstFrom, if_pos hmem, keepFirstFrom_mem_keys ws seen k]
      simp only [List.map_cons, List.mem_cons]
      constructor
      · exact fun h => ⟨Or.inr h.1, h.2⟩
      · intro h
        rcases h.1 with hk | hk
        · exact absurd (hk ▸ hmem) h.2
        · exact ⟨hk, h.2⟩
    · rw [keepFirstFrom, if_neg hmem]
      rw [List.map_cons, List.mem_cons, keepFirstFrom_mem_keys ws (w.key :: seen) k]
      simp only [List.map_cons, List.mem_cons]
      constructor
      · intro h
        rcases h with h | h
        · subst h
          exact ⟨Or.inl rfl, hmem⟩
        · exact ⟨Or.inr h.1, fun hs => h.2 (Or.inr hs)⟩
      · intro h
        rcases h.1 with h1 | h1
        · exact Or.inl h1
        · by_cases hk : k = w.key
          · exact Or.inl hk
          · refine Or.inr ⟨h1, ?_⟩
            intro hs
            rcases hs with hs | hs
            · exact hk hs
            · exact h.2 hs

/-- Claim C5: for every EnvVar list — duplicates included — the compose
environment block has exactly one line per distinct key, the survivor
being the first occurrence, and each line references the key by external
substitution (`KEY=$\x7bKEY\x7d`) rather than embedding the value. -/
theorem C5_compose_env_block_dedup (l : List EnvVarSuggestion) :
    composeEnvBlock l =
      String.intercalate "\n"
        (((keepFirstFrom [] l).map (fun v => v.key)).map composeEnvLine) ∧
    ((uniqueEnvs l).map (fun v => v.key)).Nodup ∧
    (∀ k, k ∈ (uniqueEnvs l).map (fun v => v.key) ↔ k ∈ l.map (fun v => v.key)) := by
  have he : uniqueEnvs l = keepFirstFrom [] l := uniqueEnvs_eq_keepFirst l
  refine ⟨?_, ?_, ?_⟩
  · rw [composeEnvBlock, he, List.map_map]
    rfl
  · rw [he]
    exact keepFirstFrom_keys_nodup l []
  · intro k
    rw [he, keepFirstFrom_mem_keys]
    simp

/-! ## Claim C6 -/

/-- `find?` over an append searches the left block first. -/
theorem find?_append_eq {α : Type} (p : α → Bool) :
    ∀ (l1 l2 : List α),
      (l1 ++ l2).find? p =
        match l1.find? p with
        | some v => some v
        | none => l2.find? p
  | [], _ => rfl
  | a :: l1, l2 => by
    cases hpa : p a with
    | true => simp [List.find?_cons, hpa]
    | false => simp [List.find?_cons, hpa, find?_append_eq p l1 l2]

/-- The backfill step leaves entries with a different key untouched
(`find?` view). -/
theorem backfillFirst_find?_ne (stdVar : EnvVarSuggestion) (k : String)
    (hk : ¬ k = stdVar.key) :
    ∀ nv : List EnvVarSuggestion,
      (backfillFirst stdVar nv).find? (fun v => v.key == k) =
        nv.find? (fun v => v.key == k)
  | [] => rfl
  | w :: ws => by
    by_cases hw : (w.key == stdVar.key) = true
    · have hwk : (w.key == k) = false := by
        rw [beq_eq_false_iff_ne]
        intro he
        rw [beq_iff_eq] at hw
        exact hk (by rw [← he, hw])
      by_cases hcond : w.value = "" ∧ stdVar.value ≠ ""
      · simp [backfillFirst, hw, hcond, List.find?_cons, hwk]
      · simp [backfillFirst, hw, hcond]
    · cases hwk : (w.key == k) with
      | true => simp [backfillFirst, hw, List.find?_cons, hwk]
      | false =>
        simp [backfillFirst, hw, List.find?_cons, hwk,
          backfillFirst_find?_ne stdVar k hk ws]

/-- The backfill step on the first entry holding the standard key:
an empty value is filled with a non-empty standard default, any other
value is preserved. -/
theorem backfillFirst_find?_self (stdVar : EnvVarSuggestion) :
    ∀ (nv : List EnvVarSuggestion) (v : EnvVarSuggestion),
      nv.find? (fun t => t.key == stdVar.key) = some v →
      (backfillFirst stdVar nv).find? (fun t => t.key == stdVar.key) =
        some (if v.value = "" ∧ stdVar.value ≠ "" then
          ⟨v.key, v.description, v.defaultValue, stdVar.value⟩ else v)
  | [], v, hv => by simp at hv
  | w :: ws, v, hv => by
    by_cases hw : (w.key == stdVar.key) = true
    · simp only [List.find?_cons, hw, Option.some.injEq] at hv
      subst hv
      by_cases hcond : w.value = "" ∧ stdVar.value ≠ ""
      · simp [backfillFirst, hw, hcond, List.find?_cons]
      · simp [backfillFirst, hw, hcond, List.find?_cons]
    · rw [Bool.not_eq_true] at hw
      simp only [List.find?_cons, hw] at hv
      simp [backfillFirst, hw, List.find?_cons,
        backfillFirst_find?_self stdVar ws v hv]

/-- A merge step for one standard variable does not disturb entries with
a different key (`find?` view). -/
theorem mergeStd_find?_ne (pk : List String) (nv : List EnvVarSuggestion)
    (s : EnvVarSuggestion) (k : String) (hk : ¬ k = s.key) :
    (mergeStd pk nv s).find? (fun v => v.key == k) =
      nv.find? (fun v => v.key == k) := by
  unfold mergeStd
  by_cases hc : pk.contains s.key
  · rw [if_pos hc]
    exact backfillFirst_find?_ne s k hk nv
  · rw [if_neg hc, find?_append_eq]
    have hs : (s.key == k) = false := by
      rw [beq_eq_false_iff_ne]
      exact fun he => hk he.symm
    cases h : nv.find? (fun v => v.key == k) with
    | some v => rfl
    | none => simp [List.find?_cons, hs]

/-- Folding merge steps whose keys all differ from `k` leaves `find?` at
`k` unchanged. -/
theorem foldl_mergeStd_find?_ne (pk : List String) (k : String) :
    ∀ (stds : List EnvVarSuggestion) (nv : List EnvVarSuggestion),
      (∀ s ∈ stds, ¬ k = s.key) →
      ((stds.foldl (mergeStd pk) nv).find? (fun v => v.key == k)) =
        nv.find? (fun v => v.key == k)
  | [], _, _ => rfl
  | s :: stds, nv, h => by
    rw [List.foldl_cons,
      foldl_mergeStd_find?_ne pk k stds (mergeStd pk nv s)
        (fun t ht => h t (List.mem_cons_of_mem s ht)),
      mergeStd_find?_ne pk nv s k (h s (List.mem_cons_self s stds))]

/-- The backfill step leaves entries with a different key untouched
(`filter` view). -/
theorem backfillFirst_filter_ne (stdVar : EnvVarSuggestion) (k : String)
    (hk : ¬ k = stdVar.key) :
    ∀ nv : List EnvVarSuggestion,
      (backfillFirst stdVar nv).filter (fun v => v.key == k) =
        nv.filter (fun v => v.key == k)
  | [] => rfl
  | w :: ws => by
    by_cases hw : (w.key == stdVar.key) = true
    · have hwk : (w.key == k) = false := by
        rw [beq_eq_false_iff_ne]
        intro he
        rw [beq_iff_eq] at hw
        exact hk (by rw [← he, hw])
      by_cases hcond : w.value = "" ∧ stdVar.value ≠ ""
      · simp [backfillFirst, hw, hcond, List.filter_cons, hwk]
      · simp [backfillFirst, hw, hcond]
    · cases hwk : (w.key == k) with
      | true =>
        simp [backfillFirst, hw, List.filter_cons, hwk,
          backfillFirst_filter_ne stdVar k hk ws]
      | false =>
        simp [backfillFirst, hw, List.filter_cons, hwk,
          backfillFirst_filter_ne stdVar k hk ws]

/-- A merge step for one standard variable does not disturb entries with
a different key (`filter` view). -/
theorem mergeStd_filter_ne (pk : List String) (nv : List EnvVarSuggestion)
    (s : EnvVarSuggestion) (k : String) (hk : ¬ k = s.key) :
    (mergeStd pk nv s).filter (fun v => v.key == k) =
      nv.filter (fun v => v.key == k) := by
  unfold mergeStd
  by_cases hc : pk.contains s.key
  · rw [if_pos hc]
    exact backfillFirst_filter_ne s k hk nv
  · rw [if_neg hc, List.filter_append]
    have hs : (s.key == k) = false := by
      rw [beq_eq_false_iff_ne]
      exact fun he => hk he.symm
    simp [List.filter_cons, hs]

/-- Folding merge steps whose keys all differ from `k` leaves `filter` at
`k` unchanged. -/
theorem foldl_mergeStd_filter_ne (pk : List String) (k : String) :
    ∀ (stds : List EnvVarSuggestion) (nv : List EnvVarSuggestion),
      (∀ s ∈ stds, ¬ k = s.key) →
      ((stds.foldl (mergeStd pk) nv).filter (fun v => v.key == k)) =
        nv.filter (fun v => v.key == k)
  | [], _, _ => rfl
  | s :: stds, nv, h => by
    rw [List.foldl_cons,
      foldl_mergeStd_filter_ne pk k stds (mergeStd pk nv s)
        (fun t ht => h t (List.mem_cons_of_mem s ht)),
      mergeStd_filter_ne pk nv s k (h s (List.mem_cons_self s stds))]

/-- When the key is already present, the merge backfills the first
occurrence (only if empty, only with a non-empty default) and leaves it
otherwise intact, whichever standard variable it is. -/
theorem mergeStandardVars_find?_present (l : List EnvVarSuggestion)
    (pre post : List EnvVarSuggestion) (std : EnvVarSuggestion)
    (hdecomp : STANDARD_LLM_VARS = pre ++ std :: post)
    (hpre : ∀ t ∈ pre, ¬ std.key = t.key) (hpost : ∀ t ∈ post, ¬ std.key = t.key)
    (v : EnvVarSuggestion)
    (hv : l.find? (fun t => t.key == std.key) = some v) :
    (mergeStandardVars l).find? (fun t => t.key == std.key) =
      some (if v.value = "" ∧ std.value ≠ "" then
        ⟨v.key, v.description, v.defaultValue, std.value⟩ else v) := by
  have hp := List.find?_some hv
  rw [beq_iff_eq] at hp
  have hkmem : std.key ∈ l.map (fun e => e.key) :=
    List.mem_map.mpr ⟨v, List.mem_of_find?_eq_some hv, hp⟩
  have hcontains : (l.map (fun e => e.key)).contains std.key = true := by
    simpa [List.contains] using hkmem
  rw [mergeStandardVars, hdecomp, List.foldl_append, List.foldl_cons]
  rw [foldl_mergeStd_find?_ne _ _ post _ hpost]
  have hacc : (pre.foldl (mergeStd (l.map (fun e => e.key))) l).find?
      (fun t => t.key == std.key) = some v := by
    rw [foldl_mergeStd_find?_ne _ _ pre l hpre, hv]
  rw [mergeStd, if_pos hcontains]
  exact backfillFirst_find?_self std _ v hacc

/-- When the key is missing, the merge appends the standard entry with its
fixed default, whichever standard variable it is. -/
theorem mergeStandardVars_find?_absent (l : List EnvVarSuggestion)
    (pre post : List EnvVarSuggestion) (std : EnvVarSuggestion)
    (hdecomp : STANDARD_LLM_VARS = pre ++ std :: post)
    (hpre : ∀ t ∈ pre, ¬ std.key = t.key) (hpost : ∀ t ∈ post, ¬ std.key = t.key)
    (hk : std.key ∉ l.map (fun e => e.key)) :
    (mergeStandardVars l).find? (fun t => t.key == std.key) = some std := by
  have hnone : l.find? (fun t => t.key == std.key) = none := by
    rw [List.find?_eq_none]
    intro x hx hpx
    rw [beq_iff_eq] at hpx
    exact hk (List.mem_map.mpr ⟨x, hx, hpx⟩)
  have hcontains : ¬ (l.map (fun e => e.key)).contains std.key = true := by
    simpa [List.contains] using hk
  rw [mergeStandardVars, hdecomp, List.foldl_append, List.foldl_cons]
  rw [foldl_mergeStd_find?_ne _ _ post _ hpost]
  have hacc : (pre.foldl (mergeStd (l.map (fun e => e.key))) l).find?
      (fun t => t.key == std.key) = none := by
    rw [foldl_mergeStd_find?_ne _ _ pre l hpre, hnone]
  rw [mergeStd, if_neg hcontains, find?_append_eq, hacc]
  simp [List.find?_cons]

/-- Claim C6: merging the mandatory variables into a list holding only
`OPENROUTER_API_KEY = "x"` yields all the mandatory keys with
`LLM_PROVIDER`, `BASE_URL` and `MODEL_NAME` filled from the fixed
defaults while `OPENROUTER_API_KEY` keeps `"x"`; in general, for every
standard variable, a present non-empty entry is preserved verbatim, a
missing key is appended with its full standard entry, an existing-but-
empty value is backfilled exactly when the standard default is non-empty,
and entries under non-standard keys are never touched. -/
theorem C6_mandatory_variable_merge :
    ((mergeAndSortEnvVars [⟨"OPENROUTER_API_KEY", "API key", "", "x"⟩]).find?
        (fun v => v.key == "LLM_PROVIDER") =
      some ⟨"LLM_PROVIDER", "Set to \x27openrouter\x27 or \x27gemini\x27", "",
        "openrouter"⟩ ∧
     (mergeAndSortEnvVars [⟨"OPENROUTER_API_KEY", "API key", "", "x"⟩]).find?
        (fun v => v.key == "BASE_URL") =
      some ⟨"BASE_URL", "API Endpoint (for OpenRouter)", "",
        "https://openrouter.ai/api/v1"⟩ ∧
     (mergeAndSortEnvVars [⟨"OPENROUTER_API_KEY", "API key", "", "x"⟩]).find?
        (fun v => v.key == "MODEL_NAME") =
      some ⟨"MODEL_NAME", "Model ID (for OpenRouter)", "",
        "meta-llama/llama-3.1-8b-instruct"⟩ ∧
     (mergeAndSortEnvVars [⟨"OPENROUTER_API_KEY", "API key", "", "x"⟩]).find?
        (fun v => v.key == "OPENROUTER_API_KEY") =
      some ⟨"OPENROUTER_API_KEY", "API key", "", "x"⟩ ∧
     (∀ s ∈ STANDARD_LLM_VARS,
        s.key ∈ (mergeAndSortEnvVars [⟨"OPENROUTER_API_KEY", "API key", "", "x"⟩]).map
          (fun v => v.key))) ∧
    (∀ (l : List EnvVarSuggestion) (std : EnvVarSuggestion),
      std ∈ STANDARD_LLM_VARS →
      (std.key ∉ l.map (fun e => e.key) →
        (mergeStandardVars l).find? (fun t => t.key == std.key) = some std) ∧
      (∀ v, l.find? (fun t => t.key == std.key) = some v →
        (mergeStandardVars l).find? (fun t => t.key == std.key) =
          some (if v.value = "" ∧ std.value ≠ "" then
            ⟨v.key, v.description, v.defaultValue, std.value⟩ else v))) ∧
    (∀ (l : List EnvVarSuggestion) (k : String),
      (∀ s ∈ STANDARD_LLM_VARS, ¬ k = s.key) →
      (mergeStandardVars l).filter (fun v => v.key == k) =
        l.filter (fun v => v.key == k)) := by
  refine ⟨by decide, ?_, ?_⟩
  · intro l std hstd
    obtain ⟨pre, post, hdecomp⟩ := List.append_of_mem hstd
    have hnd : (STANDARD_LLM_VARS.map (fun e => e.key)).Nodup := by decide
    rw [hdecomp, List.map_append, List.map_cons] at hnd
    have hsplit := List.nodup_append.mp hnd
    have hpre : ∀ t ∈ pre, ¬ std.key = t.key := by
      intro t ht he
      exact hsplit.2.2 (List.mem_map.mpr ⟨t, ht, rfl⟩)
        (by rw [← he]; exact List.mem_cons_self _ _)
    have hpost : ∀ t ∈ post, ¬ std.key = t.key := by
      intro t ht he
      have hnc := hsplit.2.1
      rw [List.nodup_cons] at hnc
      exact hnc.1 (List.mem_map.mpr ⟨t, ht, he.symm⟩)
    exact ⟨mergeStandardVars_find?_absent l pre post std hdecomp hpre hpost,
      fun v hv =>
        mergeStandardVars_find?_present l pre post std hdecomp hpre hpost v hv⟩
  · intro l k hk
    exact foldl_mergeStd_filter_ne _ k STANDARD_LLM_VARS l hk

/-- Witness for C6's general clauses: a missing `HOST` is appended with
its default, and an empty `BASE_URL` is backfilled with the fixed
default. -/
theorem C6_witness :
    (mergeStandardVars [⟨"FOO", "d", "", "1"⟩]).find?
      (fun t => t.key == "HOST") =
      some ⟨"HOST", "Required for Docker networking (Auto-handled)", "",
        "0.0.0.0"⟩ ∧
    (mergeStandardVars [⟨"BASE_URL", "d", "", ""⟩]).find?
      (fun t => t.key == "BASE_URL") =
      some ⟨"BASE_URL", "d", "", "https://openrouter.ai/api/v1"⟩ := by
  constructor
  · exact (C6_mandatory_variable_merge.2.1 [⟨"FOO", "d", "", "1"⟩]
      ⟨"HOST", "Required for Docker networking (Auto-handled)", "", "0.0.0.0"⟩
      (by decide)).1 (by decide)
  · exact ((C6_mandatory_variable_merge.2.1 [⟨"BASE_URL", "d", "", ""⟩]
      ⟨"BASE_URL", "API Endpoint (for OpenRouter)", "",
        "https://openrouter.ai/api/v1"⟩ (by decide)).2
      ⟨"BASE_URL", "d", "", ""⟩ (by decide)).trans (by decide)

/-! ## Claim C8 -/

/-- Sign of the modelled `localeCompare`: non-positive means `≤`. -/
theorem lcm_le_iff (a b : String) : localeCompareModel a b ≤ 0 ↔ a ≤ b := by
  unfold localeCompareModel
  by_cases h1 : a < b
  · rw [if_pos h1]
    simp [le_of_lt h1]
  · by_cases h2 : b < a
    · rw [if_neg h1, if_pos h2]
      constructor
      · intro h
        exact absurd h (by omega)
      · intro h
        exact absurd h2 (not_lt.mpr h)
    · rw [if_neg h1, if_neg h2]
      have he : a = b := le_antisymm (not_lt.mp h2) (not_lt.mp h1)
      simp [he]

/-- Sign of the modelled `localeCompare`: negative means `<`. -/
theorem lcm_lt_iff (a b : String) : localeCompareModel a b < 0 ↔ a < b := by
  unfold localeCompareModel
  by_cases h1 : a < b
  · rw [if_pos h1]
    simp [h1]
  · by_cases h2 : b < a
    · rw [if_neg h1, if_pos h2]
      constructor
      · intro h
        exact absurd h (by omega)
      · intro h
        exact absurd h h1
    · rw [if_neg h1, if_neg h2]
      constructor
      · intro h
        exact absurd h (by omega)
      · intro h
        exact absurd h h1

/-- A non-priority entry compares strictly after a priority entry. -/
theorem envCompare_nonpri_pri (a v : EnvVarSuggestion)
    (ha : isPriorityVar a = false) (hv : isPriorityVar v = true) :
    envCompare a v = 1 := by
  have ha' : jsIndexOf PRIORITY a.key = -1 := by
    simpa [isPriorityVar] using ha
  have hv' : ¬ jsIndexOf PRIORITY v.key = -1 := by
    simpa [isPriorityVar] using hv
  unfold envCompare
  rw [if_neg (by simp [ha']), if_neg (by simp [ha']), if_pos hv']

/-- Between two priority entries, the comparator orders by priority
index. -/
theorem envCompare_pri_le (a b : EnvVarSuggestion)
    (ha : isPriorityVar a = true) (hb : isPriorityVar b = true)
    (h : envCompare a b ≤ 0) :
    jsIndexOf PRIORITY a.key ≤ jsIndexOf PRIORITY b.key := by
  have ha' : ¬ jsIndexOf PRIORITY a.key = -1 := by
    simpa [isPriorityVar] using ha
  have hb' : ¬ jsIndexOf PRIORITY b.key = -1 := by
    simpa [isPriorityVar] using hb
  unfold envCompare at h
  rw [if_pos ⟨ha', hb'⟩] at h
  omega

/-- Between two non-priority entries, the comparator orders
alphabetically by key. -/
theorem envCompare_alpha_le (a b : EnvVarSuggestion)
    (ha : isPriorityVar a = false) (hb : isPriorityVar b = false)
    (h : envCompare a b ≤ 0) :
    a.key ≤ b.key := by
  have ha' : jsIndexOf PRIORITY a.key = -1 := by
    simpa [isPriorityVar] using ha
  have hb' : jsIndexOf PRIORITY b.key = -1 := by
    simpa [isPriorityVar] using hb
  unfold envCompare at h
  rw [if_neg (by simp [ha']), if_neg (by simp [ha']), if_neg (by simp [hb'])] at h
  exact (lcm_le_iff a.key b.key).mp h

/-- The comparator is total: if `x` need not precede `y` strictly, `y`
may precede `x`. -/
theorem envCompare_total (x y : EnvVarSuggestion)
    (h : ¬ envCompare x y < 0) : envCompare y x ≤ 0 := by
  unfold envCompare at h ⊢
  by_cases hx : jsIndexOf PRIORITY x.key = -1 <;>
    by_cases hy : jsIndexOf PRIORITY y.key = -1
  · rw [if_neg (by simp [hx]), if_neg (by simp [hx]), if_neg (by simp [hy])] at h
    rw [if_neg (by simp [hy]), if_neg (by simp [hy]), if_neg (by simp [hx])]
    rw [lcm_lt_iff] at h
    rw [lcm_le_iff]
    exact le_of_not_lt h
  · rw [if_neg (by simp [hx]), if_pos hy]
    omega
  · rw [if_neg (by simp [hy]), if_pos hx] at h
    exact absurd (by omega) h
  · rw [if_pos ⟨hx, hy⟩] at h
    rw [if_pos ⟨hy, hx⟩]
    omega

/-- Mixed transitivity for the comparator sign. -/
theorem envCompare_lt_le_trans (x y z : EnvVarSuggestion)
    (hxy : envCompare x y < 0) (hyz : envCompare y z ≤ 0) :
    envCompare x z ≤ 0 := by
  unfold envCompare at hxy hyz ⊢
  by_cases hx : jsIndexOf PRIORITY x.key = -1 <;>
    by_cases hy : jsIndexOf PRIORITY y.key = -1 <;>
      by_cases hz : jsIndexOf PRIORITY z.key = -1
  · rw [if_neg (by simp [hx]), if_neg (by simp [hx]), if_neg (by simp [hy])] at hxy
    rw [if_neg (by simp [hy]), if_neg (by simp [hy]), if_neg (by simp [hz])] at hyz
    rw [if_neg (by simp [hx]), if_neg (by simp [hx]), if_neg (by simp [hz])]
    rw [lcm_lt_iff] at hxy
    rw [lcm_le_iff] at hyz
    rw [lcm_le_iff]
    exact le_of_lt (lt_of_lt_of_le hxy hyz)
  · rw [if_neg (by simp [hy]), if_neg (by simp [hy]), if_pos hz] at hyz
    exact absurd hyz (by omega)
  · rw [if_neg (by simp [hx]), if_neg (by simp [hx]), if_pos hy] at hxy
    exact absurd hxy (by omega)
  · rw [if_neg (by simp [hx]), if_neg (by simp [hx]), if_pos hy] at hxy
    exact absurd hxy (by omega)
  · rw [if_neg (by simp [hz]), if_pos hx]
    omega
  · rw [if_neg (by simp [hy]), if_neg (by simp [hy]), if_pos hz] at hyz
    exact absurd hyz (by omega)
  · rw [if_neg (by simp [hz]), if_pos hx]
    omega
  · rw [if_pos ⟨hx, hy⟩] at hxy
    rw [if_pos ⟨hy, hz⟩] at hyz
    rw [if_pos ⟨hx, hz⟩]
    omega

/-- Members of an insertion are the new element or old members. -/
theorem mem_insertSorted (cmp : EnvVarSuggestion → EnvVarSuggestion → Int)
    (x : EnvVarSuggestion) :
    ∀ (l : List EnvVarSuggestion) (z : EnvVarSuggestion),
      z ∈ insertSorted cmp x l → z = x ∨ z ∈ l
  | [], z, h => by
    simp [insertSorted] at h
    exact Or.inl h
  | y :: ys, z, h => by
    by_cases hc : cmp x y < 0
    · rw [insertSorted, if_pos hc] at h
      rcases List.mem_cons.mp h with rfl | h
      · exact Or.inl rfl
      · exact Or.inr h
    · rw [insertSorted, if_neg hc] at h
      rcases List.mem_cons.mp h with rfl | h
      · exact Or.inr (List.mem_cons_self _ _)
      · rcases mem_insertSorted cmp x ys z h with h | h
        · exact Or.inl h
        · exact Or.inr (List.mem_cons_of_mem _ h)

/-- Insertion permutes to consing. -/
theorem insertSorted_perm (cmp : EnvVarSuggestion → EnvVarSuggestion → Int)
    (x : EnvVarSuggestion) :
    ∀ l : List EnvVarSuggestion, (insertSorted cmp x l).Perm (x :: l)
  | [] => List.Perm.refl _
  | y :: ys => by
    by_cases hc : cmp x y < 0
    · rw [insertSorted, if_pos hc]
    · rw [insertSorted, if_neg hc]
      exact (List.Perm.cons y (insertSorted_perm cmp x ys)).trans
        (List.Perm.swap x y ys)

/-- Inserting into a list sorted by the comparator keeps it sorted. -/
theorem pairwise_insertSorted (x : EnvVarSuggestion) :
    ∀ l : List EnvVarSuggestion,
      l.Pairwise (fun a b => envCompare a b ≤ 0) →
      (insertSorted envCompare x l).Pairwise (fun a b => envCompare a b ≤ 0)
  | [], _ => by simp [insertSorted]
  | y :: ys, h => by
    rw [List.pairwise_cons] at h
    by_cases hc : envCompare x y < 0
    · rw [insertSorted, if_pos hc, List.pairwise_cons]
      refine ⟨?_, List.pairwise_cons.mpr h⟩
      intro z hz
      rcases List.mem_cons.mp hz with rfl | hz
      · omega
      · exact envCompare_lt_le_trans x y z hc (h.1 z hz)
    · rw [insertSorted, if_neg hc, List.pairwise_cons]
      refine ⟨?_, pairwise_insertSorted x ys h.2⟩
      intro z hz
      rcases mem_insertSorted envCompare x ys z hz with heq | hz
      · rw [heq]
        exact envCompare_total x y hc
      · exact h.1 z hz

/-- Folded insertions keep the accumulator sorted. -/
theorem pairwise_foldl_insert :
    ∀ (l acc : List EnvVarSuggestion),
      acc.Pairwise (fun a b => envCompare a b ≤ 0) →
      (l.foldl (fun acc x => insertSorted envCompare x acc) acc).Pairwise
        (fun a b => envCompare a b ≤ 0)
  | [], _, h => h
  | x :: xs, acc, h =>
    pairwise_foldl_insert xs (insertSorted envCompare x acc)
      (pairwise_insertSorted x acc h)

/-- Folded insertions permute the input onto the accumulator. -/
theorem foldl_insert_perm :
    ∀ (l acc : List EnvVarSuggestion),
      (l.foldl (fun acc x => insertSorted envCompare x acc) acc).Perm (acc ++ l)
  | [], acc => by simp
  | x :: xs, acc => by
    rw [List.foldl_cons]
    refine (foldl_insert_perm xs (insertSorted envCompare x acc)).trans ?_
    refine (List.Perm.append_right xs (insertSorted_perm envCompare x acc)).trans ?_
    exact List.perm_middle.symm

/-- The sort of the merge `useEffect` is sorted by the comparator. -/
theorem sortEnvVars_pairwise (l : List EnvVarSuggestion) :
    (sortEnvVars l).Pairwise (fun a b => envCompare a b ≤ 0) :=
  pairwise_foldl_insert l [] (by simp)

/-- The sort permutes its input. -/
theorem sortEnvVars_perm (l : List EnvVarSuggestion) :
    (sortEnvVars l).Perm l := by
  refine (foldl_insert_perm l []).trans ?_
  simp

/-- In a comparator-sorted list, everything after the first non-priority
entry is non-priority. -/
theorem dropWhile_not_pri :
    ∀ l : List EnvVarSuggestion,
      l.Pairwise (fun a b => envCompare a b ≤ 0) →
      ∀ v ∈ l.dropWhile isPriorityVar, isPriorityVar v = false
  | [], _, v, hv => by simp at hv
  | a :: l', h, v, hv => by
    rw [List.pairwise_cons] at h
    cases ha : isPriorityVar a with
    | true =>
      rw [List.dropWhile_cons_of_pos ha] at hv
      exact dropWhile_not_pri l' h.2 v hv
    | false =>
      rw [List.dropWhile_cons_of_neg (by simp [ha])] at hv
      rcases List.mem_cons.mp hv with rfl | hv
      · exact ha
      · cases hvp : isPriorityVar v with
        | false => rfl
        | true =>
          have hle := h.1 v hv
          rw [envCompare_nonpri_pri a v ha hvp] at hle
          exact absurd hle (by omega)

/-- Claim C8: after the mandatory-variable merge, the list is ordered with
the priority keys (HOST, PORT, LLM_PROVIDER, OPENROUTER_API_KEY,
GOOGLE_API_KEY, BASE_URL, MODEL_NAME) first, in that fixed order of
priority indices, followed by all remaining keys sorted alphabetically;
the sort is a permutation of the merged list. -/
theorem C8_priority_then_alphabetical (l : List EnvVarSuggestion) :
    ∃ pre post,
      mergeAndSortEnvVars l = pre ++ post ∧
      (∀ v ∈ pre, isPriorityVar v = true) ∧
      (∀ v ∈ post, isPriorityVar v = false) ∧
      pre.Pairwise
        (fun a b => jsIndexOf PRIORITY a.key ≤ jsIndexOf PRIORITY b.key) ∧
      post.Pairwise (fun a b => a.key ≤ b.key) ∧
      (mergeAndSortEnvVars l).Perm (mergeStandardVars l) := by
  have hpw : (mergeAndSortEnvVars l).Pairwise (fun a b => envCompare a b ≤ 0) :=
    sortEnvVars_pairwise (mergeStandardVars l)
  refine ⟨(mergeAndSortEnvVars l).takeWhile isPriorityVar,
    (mergeAndSortEnvVars l).dropWhile isPriorityVar,
    (List.takeWhile_append_dropWhile isPriorityVar (mergeAndSortEnvVars l)).symm,
    ?_, ?_, ?_, ?_, sortEnvVars_perm (mergeStandardVars l)⟩
  · intro v hv
    exact List.mem_takeWhile_imp hv
  · exact dropWhile_not_pri (mergeAndSortEnvVars l) hpw
  · have hsub : ((mergeAndSortEnvVars l).takeWhile isPriorityVar).Pairwise
        (fun a b => envCompare a b ≤ 0) :=
      hpw.sublist (List.takeWhile_sublist isPriorityVar)
    refine hsub.imp_of_mem ?_
    intro a b ha hb hle
    exact envCompare_pri_le a b (List.mem_takeWhile_imp ha)
      (List.mem_takeWhile_imp hb) hle
  · have hsub : ((mergeAndSortEnvVars l).dropWhile isPriorityVar).Pairwise
        (fun a b => envCompare a b ≤ 0) :=
      hpw.sublist (List.dropWhile_sublist isPriorityVar)
    refine hsub.imp_of_mem ?_
    intro a b ha hb hle
    exact envCompare_alpha_le a b
      (dropWhile_not_pri (mergeAndSortEnvVars l) hpw a
        (by exact ha))
      (dropWhile_not_pri (mergeAndSortEnvVars l) hpw b
        (by exact hb)) hle

/-! ## Claim C2 -/

/-- Pieces produced by the newline split contain no newline. -/
theorem splitNlAux_no_nl :
    ∀ (s acc : List Char), '\n' ∉ acc →
      ∀ piece ∈ splitNlAux s acc, '\n' ∉ piece
  | [], acc, hacc, piece, hp => by
    simp [splitNlAux] at hp
    rw [hp, List.mem_reverse]
    exact hacc
  | c :: cs, acc, hacc, piece, hp => by
    by_cases hc : c = '\n'
    · rw [splitNlAux, if_pos hc] at hp
      rcases List.mem_cons.mp hp with rfl | hp
      · rw [List.mem_reverse]
        exact hacc
      · exact splitNlAux_no_nl cs [] (by simp) piece hp
    · rw [splitNlAux, if_neg hc] at hp
      refine splitNlAux_no_nl cs (c :: acc) ?_ piece hp
      intro hmem
      rcases List.mem_cons.mp hmem with h | h
      · exact hc h.symm
      · exact hacc h

/-- Splitting a newline-free tail appends it to the accumulator. -/
theorem splitNlAux_no_nl_eq :
    ∀ (s acc : List Char), '\n' ∉ s → splitNlAux s acc = [acc.reverse ++ s]
  | [], acc, _ => by simp [splitNlAux]
  | c :: cs, acc, hs => by
    have hc : ¬ c = '\n' := fun h => hs (h ▸ List.mem_cons_self c cs)
    rw [splitNlAux, if_neg hc,
      splitNlAux_no_nl_eq cs (c :: acc) (fun h => hs (List.mem_cons_of_mem c h))]
    simp

/-- Splitting past the first newline emits the accumulated piece. -/
theorem splitNlAux_append_nl :
    ∀ (l : List Char) (acc rest : List Char), '\n' ∉ l →
      splitNlAux (l ++ '\n' :: rest) acc =
        (acc.reverse ++ l) :: splitNlAux rest []
  | [], acc, rest, _ => by simp [splitNlAux]
  | c :: l', acc, rest, hl => by
    have hc : ¬ c = '\n' := fun h => hl (h ▸ List.mem_cons_self c l')
    rw [List.cons_append, splitNlAux, if_neg hc,
      splitNlAux_append_nl l' (c :: acc) rest
        (fun h => hl (List.mem_cons_of_mem c h))]
    simp

/-- Round trip: splitting a newline-join of newline-free pieces recovers
the pieces. -/
theorem splitNl_joinNl :
    ∀ M : List (List Char), M ≠ [] → (∀ p ∈ M, '\n' ∉ p) →
      splitNl (joinNl M) = M
  | [], hne, _ => absurd rfl hne
  | [l], _, hp => by
    rw [joinNl, splitNl, splitNlAux_no_nl_eq l [] (hp l (List.mem_cons_self l []))]
    simp
  | l :: l' :: ls, _, hp => by
    rw [show joinNl (l :: l' :: ls) = l ++ '\n' :: joinNl (l' :: ls) from rfl]
    rw [splitNl, splitNlAux_append_nl l [] (joinNl (l' :: ls))
      (hp l (List.mem_cons_self l (l' :: ls)))]
    rw [List.reverse_nil, List.nil_append]
    rw [show splitNlAux (joinNl (l' :: ls)) [] = splitNl (joinNl (l' :: ls)) from rfl]
    rw [splitNl_joinNl (l' :: ls) (by simp)
      (fun p hpm => hp p (List.mem_cons_of_mem l hpm))]

/-- Trimming keeps a list whose two ends are non-whitespace. -/
theorem trimChars_of_ends (c d : Char) (mid : List Char)
    (hc : c.isWhitespace = false) (hd : d.isWhitespace = false) :
    trimChars (c :: mid ++ [d]) = c :: mid ++ [d] := by
  unfold trimChars
  rw [show ((c :: mid ++ [d]).dropWhile Char.isWhitespace) = c :: mid ++ [d] from by
    simp [List.dropWhile_cons, hc]]
  have h2 : (c :: mid ++ [d]).reverse = d :: (mid.reverse ++ [c]) := by simp
  rw [h2]
  rw [show ((d :: (mid.reverse ++ [c])).dropWhile Char.isWhitespace) =
      d :: (mid.reverse ++ [c]) from by simp [List.dropWhile_cons, hd]]
  rw [← h2, List.reverse_reverse]

/-- An emitted declaration line is its own trim (non-whitespace ends). -/
theorem trimChars_emit (v : EnvVarSuggestion) :
    trimChars (emitEnvLine v) = emitEnvLine v := by
  have hshape : emitEnvLine v =
      'E' :: ("NV ".toList ++ v.key.toList ++ "=\"".toList ++ v.value.toList) ++
        ['"'] := by
    simp [emitEnvLine]
  rw [hshape]
  exact trimChars_of_ends 'E' '"' _ (by decide) (by decide)

/-- Every emitted declaration line is recognised by the strip filter. -/
theorem isEnvLine_emit (v : EnvVarSuggestion) :
    isEnvLine (emitEnvLine v) = true := by
  unfold isEnvLine
  rw [trimChars_emit, List.isPrefixOf_iff_prefix]
  have hshape : emitEnvLine v =
      "ENV ".toList ++
        (v.key.toList ++ "=\"".toList ++ v.value.toList ++ "\"".toList) := by
    simp [emitEnvLine]
  rw [hshape]
  exact List.prefix_append _ _

/-- An emitted line is newline-free when key and value are. -/
theorem emit_no_nl (v : EnvVarSuggestion) (hk : '\n' ∉ v.key.toList)
    (hv : '\n' ∉ v.value.toList) : '\n' ∉ emitEnvLine v := by
  intro h
  simp only [emitEnvLine, List.mem_append] at h
  rcases h with ((( h | h ) | h ) | h ) | h
  · simp at h
  · exact hk h
  · simp at h
  · exact hv h
  · simp at h

/-- `cleanDockerfile` is the line-level core around split and join. -/
theorem cleanDockerfile_eq (d : String) (vars : List EnvVarSuggestion) :
    cleanDockerfile d vars =
      String.mk (joinNl (cleanLines (splitNl d.toList) vars)) := rfl

/-- Stripping declaration lines from a spliced result recovers the
original stripped lines, because every emitted line is stripped and every
kept line survives. -/
theorem cleanLines_filter (S : List (List Char)) (vars : List EnvVarSuggestion) :
    (cleanLines S vars).filter (fun l => !(isEnvLine l)) =
      S.filter (fun l => !(isEnvLine l)) := by
  have hE : (vars.map emitEnvLine).filter (fun l => !(isEnvLine l)) = [] := by
    rw [List.filter_eq_nil_iff]
    intro a ha
    rcases List.mem_map.mp ha with ⟨v, _, rfl⟩
    simp [isEnvLine_emit v]
  simp only [cleanLines]
  rw [List.filter_append, List.filter_append, hE]
  have htake : ∀ a ∈ (S.filter (fun l => !(isEnvLine l))).take
      ((anchorIdx (S.filter (fun l => !(isEnvLine l))) + 1).toNat),
      (!(isEnvLine a)) = true := by
    intro a ha
    have ha2 : a ∈ S.filter (fun l => !(isEnvLine l)) := List.mem_of_mem_take ha
    have hres := List.of_mem_filter ha2
    exact hres
  have hdrop : ∀ a ∈ (S.filter (fun l => !(isEnvLine l))).drop
      ((anchorIdx (S.filter (fun l => !(isEnvLine l))) + 1).toNat),
      (!(isEnvLine a)) = true := by
    intro a ha
    have ha2 : a ∈ S.filter (fun l => !(isEnvLine l)) := List.mem_of_mem_drop ha
    have hres := List.of_mem_filter ha2
    exact hres
  rw [List.filter_eq_self.mpr htake, List.filter_eq_self.mpr hdrop,
    List.append_nil, List.take_append_drop]

/-- Claim C2 amended: regeneration of the build file is idempotent for
every variable list whose keys and values are newline-free — the strip
step removes exactly the lines the emit step re-adds.  (With a newline
inside a value the emitted line splits on the next round and a fragment
survives the strip; see the counterexample.) -/
theorem C2_regeneration_idempotent (dfile : String) (vars : List EnvVarSuggestion)
    (hnl : ∀ v ∈ vars, '\n' ∉ v.key.toList ∧ '\n' ∉ v.value.toList) :
    cleanDockerfile (cleanDockerfile dfile vars) vars =
      cleanDockerfile dfile vars := by
  have hEnl : ∀ pc ∈ vars.map emitEnvLine, '\n' ∉ pc := by
    intro pc hp
    rcases List.mem_map.mp hp with ⟨v, hv, rfl⟩
    exact emit_no_nl v (hnl v hv).1 (hnl v hv).2
  have hSnl : ∀ pc ∈ splitNl dfile.toList, '\n' ∉ pc :=
    fun pc hp => splitNlAux_no_nl dfile.toList [] (by simp) pc hp
  rw [cleanDockerfile_eq dfile vars,
    cleanDockerfile_eq (String.mk (joinNl (cleanLines (splitNl dfile.toList) vars)))
      vars]
  by_cases hM : cleanLines (splitNl dfile.toList) vars = []
  · have hvars : vars = [] := by
      have h3 := hM
      simp only [cleanLines, List.append_eq_nil] at h3
      exact List.map_eq_nil_iff.mp h3.1.2
    subst hvars
    rw [hM]
    rfl
  · have hMnl : ∀ pc ∈ cleanLines (splitNl dfile.toList) vars, '\n' ∉ pc := by
      intro pc hp
      simp only [cleanLines] at hp
      rw [List.append_assoc] at hp
      rcases List.mem_append.mp hp with hp | hp
      · exact hSnl pc
          (List.mem_of_mem_filter (List.mem_of_mem_take hp))
      · rcases List.mem_append.mp hp with hp | hp
        · exact hEnl pc hp
        · exact hSnl pc
            (List.mem_of_mem_filter (List.mem_of_mem_drop hp))
    have hround : splitNl ((String.mk (joinNl
        (cleanLines (splitNl dfile.toList) vars))).toList) =
        cleanLines (splitNl dfile.toList) vars :=
      splitNl_joinNl _ hM hMnl
    rw [hround]
    have hclean2 : cleanLines (cleanLines (splitNl dfile.toList) vars) vars =
        cleanLines (splitNl dfile.toList) vars := by
      calc cleanLines (cleanLines (splitNl dfile.toList) vars) vars
          = ((cleanLines (splitNl dfile.toList) vars).filter
              (fun l => !(isEnvLine l))).take
              ((anchorIdx ((cleanLines (splitNl dfile.toList) vars).filter
                (fun l => !(isEnvLine l))) + 1).toNat) ++
            vars.map emitEnvLine ++
            ((cleanLines (splitNl dfile.toList) vars).filter
              (fun l => !(isEnvLine l))).drop
              ((anchorIdx ((cleanLines (splitNl dfile.toList) vars).filter
                (fun l => !(isEnvLine l))) + 1).toNat) := rfl
        _ = ((splitNl dfile.toList).filter (fun l => !(isEnvLine l))).take
              ((anchorIdx ((splitNl dfile.toList).filter
                (fun l => !(isEnvLine l))) + 1).toNat) ++
            vars.map emitEnvLine ++
            ((splitNl dfile.toList).filter (fun l => !(isEnvLine l))).drop
              ((anchorIdx ((splitNl dfile.toList).filter
                (fun l => !(isEnvLine l))) + 1).toNat) := by
            rw [cleanLines_filter]
        _ = cleanLines (splitNl dfile.toList) vars := rfl
    rw [hclean2]

/-- Claim C2 as stated is false: with a value containing a newline, the
emitted `ENV` line splits on the second pass, its tail survives the strip
step, and the second regeneration differs from the first. -/
theorem C2_counterexample :
    cleanDockerfile
        (cleanDockerfile "FROM node\nWORKDIR /app\nCMD x"
          [⟨"A", "d", "", "x\nWORKDIR z"⟩])
        [⟨"A", "d", "", "x\nWORKDIR z"⟩] ≠
      cleanDockerfile "FROM node\nWORKDIR /app\nCMD x"
        [⟨"A", "d", "", "x\nWORKDIR z"⟩] := by decide

/-- Witness for the amended C2 at a concrete newline-free variable
list. -/
theorem C2_witness :
    cleanDockerfile
        (cleanDockerfile "FROM node\nWORKDIR /app\nCMD x" [⟨"A", "d", "", "1"⟩])
        [⟨"A", "d", "", "1"⟩] =
      cleanDockerfile "FROM node\nWORKDIR /app\nCMD x" [⟨"A", "d", "", "1"⟩] :=
  C2_regeneration_idempotent "FROM node\nWORKDIR /app\nCMD x"
    [⟨"A", "d", "", "1"⟩] (by decide)
